import Mathlib

/-!
Verification of the topic-extraction and engagement-weighting pipeline of the
community bot (`topic_analysis.py` and `main.py`).

The Python sources are shallowly embedded: Python dicts become association
lists in insertion order, Python floats become rationals, CPython's stable
sorts (`Counter.most_common`, `heapq.nlargest`, `sorted(..., reverse=True)`,
`list.sort`) become a stable descending merge sort on position-decorated
elements, and the regex/string helpers are written out over `List Char`
(ASCII fragment of Python's `\w`/`\s`).
-/

namespace XBot

/-! ### A stable descending sort by key

CPython's sorts are stable.  `heapq.nlargest` (used by `Counter.most_common`)
decorates each element with its position and orders by (key descending,
position ascending); `sorted(..., key=k, reverse=True)` and `list.sort` behave
the same way on equal keys.  We model all of them by merge-sorting the
position-enumerated list with that lexicographic comparison. -/

/-- Comparison on position-decorated elements: key strictly greater first,
ties by original position. -/
def leKI {α : Type} {β : Type} [LinearOrder β] (key : α → β) (x y : ℕ × α) : Bool :=
  decide (key y.2 < key x.2) || (decide (key x.2 = key y.2) && decide (x.1 ≤ y.1))

/-- Stable sort, key descending: CPython's `sorted(l, key=key, reverse=True)`. -/
def sortKeyed {α : Type} {β : Type} [LinearOrder β] (key : α → β) (l : List α) : List α :=
  ((l.enum).mergeSort (leKI key)).map Prod.snd

theorem leKI_trans {α β : Type} [LinearOrder β] (key : α → β) :
    ∀ a b c, leKI key a b → leKI key b c → leKI key a c := by
  intro a b c hab hbc
  simp only [leKI, Bool.or_eq_true, Bool.and_eq_true, decide_eq_true_eq] at *
  rcases hab with h₁ | ⟨h₁, h₁'⟩ <;> rcases hbc with h₂ | ⟨h₂, h₂'⟩
  · exact Or.inl (h₂.trans h₁)
  · exact Or.inl (h₂ ▸ h₁)
  · exact Or.inl (h₁ ▸ h₂)
  · exact Or.inr ⟨h₁.trans h₂, h₁'.trans h₂'⟩

theorem leKI_total {α β : Type} [LinearOrder β] (key : α → β) :
    ∀ a b, leKI key a b || leKI key b a := by
  intro a b
  simp only [leKI, Bool.or_eq_true, Bool.and_eq_true, decide_eq_true_eq, ← or_assoc]
  rcases lt_trichotomy (key a.2) (key b.2) with h | h | h
  · tauto
  · rcases Nat.le_total a.1 b.1 with h' | h' <;> tauto
  · tauto

theorem sortKeyed_perm {α β : Type} [LinearOrder β] (key : α → β) (l : List α) :
    (sortKeyed key l).Perm l := by
  have h := (List.mergeSort_perm l.enum (leKI key)).map Prod.snd
  rwa [List.enum_map_snd] at h

theorem sortKeyed_length {α β : Type} [LinearOrder β] (key : α → β) (l : List α) :
    (sortKeyed key l).length = l.length :=
  (sortKeyed_perm key l).length_eq

theorem sortKeyed_mem {α β : Type} [LinearOrder β] {key : α → β} {l : List α} {a : α} :
    a ∈ sortKeyed key l ↔ a ∈ l :=
  (sortKeyed_perm key l).mem_iff

theorem sortKeyed_pairwise_key {α β : Type} [LinearOrder β] (key : α → β) (l : List α) :
    (sortKeyed key l).Pairwise (fun a b => key b ≤ key a) := by
  have hs := List.sorted_mergeSort (leKI_trans key) (leKI_total key) l.enum
  rw [sortKeyed, List.pairwise_map]
  refine hs.imp ?_
  intro x y hxy
  simp only [leKI, Bool.or_eq_true, Bool.and_eq_true, decide_eq_true_eq] at hxy
  rcases hxy with h | ⟨h, _⟩
  · exact h.le
  · exact h.ge

/-- Stability: any relation that held pairwise in the input order still holds,
in the output, between elements whose keys are equal. -/
theorem sortKeyed_pairwise_of_pairwise {α β : Type} [LinearOrder β] (key : α → β)
    {l : List α} {S : α → α → Prop} (hS : l.Pairwise S) :
    (sortKeyed key l).Pairwise (fun a b => key a = key b → S a b) := by
  have hsort := List.sorted_mergeSort (leKI_trans key) (leKI_total key) l.enum
  have hperm : (l.enum.mergeSort (leKI key)).Perm l.enum := List.mergeSort_perm _ _
  have hnd : ((l.enum.mergeSort (leKI key)).map Prod.fst).Nodup :=
    ((hperm.map Prod.fst).nodup_iff).mpr (List.nodup_enum_map_fst l)
  have hne : (l.enum.mergeSort (leKI key)).Pairwise (fun x y => x.1 ≠ y.1) := by
    have h : (l.enum.mergeSort (leKI key)).map Prod.fst
        |>.Pairwise (fun a b => a ≠ b) := hnd
    exact List.pairwise_map.mp h
  have hcomb : (l.enum.mergeSort (leKI key)).Pairwise
      (fun x y => leKI key x y = true ∧ x.1 ≠ y.1) := by
    rw [List.pairwise_iff_get] at hsort hne ⊢
    exact fun i j h => ⟨hsort i j h, hne i j h⟩
  rw [sortKeyed, List.pairwise_map]
  refine hcomb.imp_of_mem ?_
  intro x y hx hy hxy hkey
  have hx' : x ∈ l.enum := hperm.mem_iff.mp hx
  have hy' : y ∈ l.enum := hperm.mem_iff.mp hy
  obtain ⟨hxlt, hxe⟩ := List.mem_enum hx'
  obtain ⟨hylt, hye⟩ := List.mem_enum hy'
  obtain ⟨hle, hfst⟩ := hxy
  have hidx : x.1 < y.1 := by
    simp only [leKI, Bool.or_eq_true, Bool.and_eq_true, decide_eq_true_eq] at hle
    rcases hle with h | ⟨_, h⟩
    · exact absurd h (by rw [hkey]; exact lt_irrefl _)
    · exact lt_of_le_of_ne h hfst
  have := List.pairwise_iff_get.mp hS ⟨x.1, hxlt⟩ ⟨y.1, hylt⟩ hidx
  simpa [← hxe, ← hye] using this

/-! ### Data model

`Post` embeds the tweet objects consumed by the pipeline.  `metrics` models the
`public_metrics` dict as an association list in key order (`none` when the
attribute is absent); `hashtags` models `entities["hashtags"]`'s tag strings
(`none` when `entities` is absent/falsy or lacks the key); `conversation_id`
models the optional attribute. -/

structure Post where
  id : ℕ
  text : String
  metrics : Option (List (String × ℕ)) := none
  hashtags : Option (List String) := none
  conversation_id : Option String := none
deriving DecidableEq

/-- `d.get(k, 0)` on a dict embedded as an association list. -/
def dictGetD (m : List (String × ℕ)) (k : String) : ℕ :=
  match m.find? (fun p => p.1 == k) with
  | some p => p.2
  | none => 0

/-- Engagement score (topic_analysis.py lines 18–26, recomputed identically in
main.py lines 108–117): `like_count + retweet_count*2 + reply_count*1.5 +
quote_count*1.8`, with 0 when `public_metrics` is absent.  Python float
arithmetic is embedded as exact rational arithmetic. -/
def engagement_score (p : Post) : ℚ :=
  match p.metrics with
  | none => 0
  | some m =>
      (dictGetD m "like_count" : ℚ) + (dictGetD m "retweet_count" : ℚ) * 2
        + (dictGetD m "reply_count" : ℚ) * (3 / 2) + (dictGetD m "quote_count" : ℚ) * (9 / 5)

/-- `int(max(1, engagement_score/10))` (topic_analysis.py lines 54–55);
Python `int` truncates toward zero, which on this nonnegative value is the
floor. -/
def hashtagWeight (s : ℚ) : ℕ := (⌊max 1 (s / 10)⌋).toNat

/-- ASCII fragment of Python `str.lower`. -/
def lowerChar (c : Char) : Char :=
  if 'A' ≤ c ∧ c ≤ 'Z' then Char.ofNat (c.toNat + 32) else c

/-- Lowercasing a string (`.lower()`), character by character. -/
def lowerStr (s : String) : String := String.mk (s.data.map lowerChar)

/-- The weighted hashtag list one post contributes (topic_analysis.py lines
50–56): `[tag['tag'].lower() for tag in tweet.entities['hashtags']] * int(weight)`. -/
def postHashtags (p : Post) : List String :=
  match p.hashtags with
  | none => []
  | some tags =>
      (List.replicate (hashtagWeight (engagement_score p)) (tags.map lowerStr)).flatten

/-- `all_hashtags`, accumulated over the posts in input order (lines 9 and 56). -/
def all_hashtags (posts : List Post) : List String :=
  posts.flatMap postHashtags

/-- One step of `collections.Counter` construction over a dict that preserves
insertion order: bump the count, inserting at the end on first occurrence. -/
def counterStep (acc : List (String × ℕ)) (x : String) : List (String × ℕ) :=
  if acc.any (fun p => p.1 == x) then
    acc.map (fun p => if p.1 == x then (p.1, p.2 + 1) else p)
  else acc ++ [(x, 1)]

/-- `collections.Counter(l)` as an insertion-ordered association list. -/
def counter (l : List String) : List (String × ℕ) := l.foldl counterStep []

/-- `Counter(all_hashtags).most_common(10)` (lines 59–60): a stable sort by
count descending (`heapq.nlargest` keeps first-seen order on ties), then the
first 10. -/
def top_hashtags (posts : List Post) : List (String × ℕ) :=
  (sortKeyed (fun e => e.2) (counter (all_hashtags posts))).take 10

/-! ### Text cleaning (topic_analysis.py lines 70–76) -/

/-- ASCII fragment of Python regex `\w`. -/
def isWordChar (c : Char) : Bool := c.isAlphanum || c == '_'

/-- ASCII fragment of Python regex `\s`. -/
def isSpaceChar (c : Char) : Bool := c.isWhitespace

/-- Drops the maximal leading run of non-whitespace characters (the `\S+` part
of a match). -/
def dropNonSpace (cs : List Char) : List Char :=
  cs.dropWhile (fun c => !(isSpaceChar c))

/-- Leftmost match of `http\S+|@\S+|#\S+` at the current position: returns the
remainder after the matched token, or `none` when nothing matches here. -/
def matchTok : List Char → Option (List Char)
  | 'h' :: 't' :: 't' :: 'p' :: c :: rest =>
      if isSpaceChar c then none else some (dropNonSpace (c :: rest))
  | '@' :: c :: rest =>
      if isSpaceChar c then none else some (dropNonSpace (c :: rest))
  | '#' :: c :: rest =>
      if isSpaceChar c then none else some (dropNonSpace (c :: rest))
  | _ => none

/-- `re.sub(r'http\S+|@\S+|#\S+', '', text)` as a left-to-right scan; the fuel
argument (initialised to the text length, an upper bound on the number of
steps) keeps the recursion structural. -/
def stripTokensAux : ℕ → List Char → List Char
  | 0, _ => []
  | _, [] => []
  | fuel + 1, c :: cs =>
      match matchTok (c :: cs) with
      | some rem => stripTokensAux fuel rem
      | none => c :: stripTokensAux fuel cs

/-- Cleaning one tweet text (lines 73–75): strip URL/mention/hashtag tokens,
then drop every character that is neither a word character nor whitespace. -/
def clean_text (s : String) : String :=
  String.mk ((stripTokensAux s.data.length s.data).filter
    (fun c => isWordChar c || isSpaceChar c))

/-- `cleaned_texts` (lines 70–76): the cleaned text of every post, in order. -/
def cleaned_texts (posts : List Post) : List String :=
  posts.map (fun p => clean_text p.text)

/-! ### Phrase mining

Modelled from the spec: the `CountVectorizer(ngram_range=(2, 3),
stop_words='english', min_df=2)` fit/transform of topic_analysis.py lines
63–96 is library code (scikit-learn), absent from this repository, so its
tokenization (lowercase, word runs of length ≥ 2), stop-word filtering,
2- and 3-gram extraction, document-frequency pruning at 2, alphabetically sorted
feature names and total-occurrence counts are embedded here following the
spec's §4.2 step 5; `none` stands for the `ValueError` the library raises when
no feature survives, caught at line 98. -/

/-- Maximal word-character runs of a character list. -/
def wordRuns : List Char → List (List Char)
  | [] => []
  | c :: cs =>
      let rs := wordRuns cs
      if isWordChar c then
        match cs, rs with
        | d :: _, r :: rest => if isWordChar d then (c :: r) :: rest else [c] :: rs
        | _, _ => [c] :: rs
      else rs

/-- Modelled from the spec: scikit-learn's default tokenization — lowercase the
document, keep word runs of length at least 2. -/
def tokenize (s : String) : List String :=
  ((wordRuns (s.data.map lowerChar)).filter (fun r => 2 ≤ r.length)).map String.mk

/-- Modelled from the spec: a representative fragment of scikit-learn's fixed
English stop-word list. -/
def stop_words : List String :=
  ["a", "about", "above", "after", "again", "all", "an", "and", "any", "are",
   "as", "at", "be", "been", "but", "by", "can", "do", "for", "from", "had",
   "has", "have", "he", "her", "his", "how", "i", "in", "is", "it", "its",
   "me", "my", "no", "not", "of", "on", "or", "our", "she", "so", "some",
   "that", "the", "their", "them", "then", "there", "these", "they", "this",
   "to", "was", "we", "were", "what", "when", "where", "which", "who", "will",
   "with", "you", "your"]

/-- Space-joined phrase from consecutive tokens (`" ".join`). -/
def joinSpaced : List String → List Char
  | [] => []
  | [t] => t.data
  | t :: u :: ts => t.data ++ ' ' :: joinSpaced (u :: ts)

/-- All contiguous `n`-grams of a token list (none when fewer than `n` tokens
remain). -/
def ngramsFrom (n : ℕ) : List String → List String
  | [] => []
  | t :: ts =>
      if n ≤ (t :: ts).length then String.mk (joinSpaced ((t :: ts).take n)) :: ngramsFrom n ts
      else []

/-- Modelled from the spec: the 2- and 3-gram phrases of one cleaned document,
stop words removed before n-gram formation. -/
def docPhrases (doc : String) : List String :=
  let toks := (tokenize doc).filter (fun t => !(stop_words.contains t))
  ngramsFrom 2 toks ++ ngramsFrom 3 toks

/-- Number of documents whose phrase list contains `ph` (document frequency). -/
def docFreq (ph : String) (grams : List (List String)) : ℕ :=
  grams.countP (fun g => g.contains ph)

/-- Total occurrences of `ph` across all documents (`X.sum(axis=0)`). -/
def occurrences (ph : String) (grams : List (List String)) : ℕ :=
  (grams.map (fun g => g.count ph)).sum

/-- Modelled from the spec: the vectorizer's feature names — distinct phrases
with document frequency at least 2 (`min_df=2`), sorted alphabetically. -/
def vocabulary (grams : List (List String)) : List String :=
  ((grams.flatten.dedup).mergeSort (fun a b => decide (a.data ≤ b.data))).filter
    (fun ph => 2 ≤ docFreq ph grams)

/-- Modelled from the spec: phrase extraction (lines 83–96) — count every
feature's total occurrences, sort by count descending (Python's stable
`sorted(..., reverse=True)` at line 96, over the alphabetical feature order),
keep the top 10; `none` when no feature exists (the caught failure case). -/
def minePhrases (docs : List String) : Option (List (String × ℕ)) :=
  let grams := docs.map docPhrases
  let vocab := vocabulary grams
  if vocab.isEmpty then none
  else
    some ((sortKeyed (fun pr => pr.2)
      (vocab.map (fun ph => (ph, occurrences ph grams)))).take 10)

/-! ### The analyzer and the orchestration layer -/

/-- The dict returned by `analyze_trending_topics` (lines 102–105). -/
structure AnalyzeOut where
  hashtags : List (String × ℕ)
  phrases : List (String × ℕ)
deriving DecidableEq

/-- `analyze_trending_topics(tweets)` (topic_analysis.py lines 5–105): weighted
hashtag top-10, plus mined phrases — skipped below 2 cleaned texts (lines
79–80), and degraded to `[]` when mining fails (lines 98–100). -/
def analyze_trending_topics (posts : List Post) : AnalyzeOut :=
  let tops := top_hashtags posts
  let cleaned := cleaned_texts posts
  if cleaned.length < 2 then { hashtags := tops, phrases := [] }
  else
    match minePhrases cleaned with
    | some ps => { hashtags := tops, phrases := ps }
    | none => { hashtags := tops, phrases := [] }

/-- A conversation-thread bucket (main.py lines 127–138). -/
structure ConvBucket where
  count : ℕ
  engagement : ℚ
  sample_text : String
deriving DecidableEq

/-- The guard `hasattr(tweet, 'conversation_id') and tweet.conversation_id`:
present and truthy (the empty string is falsy). -/
def postConv (p : Post) : Option String :=
  match p.conversation_id with
  | some c => if c = "" then none else some c
  | none => none

/-- One loop step over `top_conversations` (main.py lines 128–138): bump an
existing bucket's count and engagement, or insert a fresh bucket whose sample
text is the post's text truncated to 100 characters. -/
def convStep (acc : List (String × ConvBucket)) (p : Post) : List (String × ConvBucket) :=
  match postConv p with
  | none => acc
  | some c =>
      if acc.any (fun e => e.1 == c) then
        acc.map (fun e =>
          if e.1 == c then
            (e.1, ⟨e.2.count + 1, e.2.engagement + engagement_score p, e.2.sample_text⟩)
          else e)
      else acc ++ [(c, ⟨1, engagement_score p, String.mk (p.text.data.take 100)⟩)]

/-- The full `top_conversations` dict (insertion-ordered) after the loop. -/
def top_conversations_all (posts : List Post) : List (String × ConvBucket) :=
  posts.foldl convStep []

/-- `sorted(top_conversations.items(), key=(count, engagement), reverse=True)[:5]`
(main.py lines 142–146). -/
def top_conversations (posts : List Post) : List (String × ConvBucket) :=
  (sortKeyed (fun e => toLex (e.2.count, e.2.engagement)) (top_conversations_all posts)).take 5

/-- A high-engagement entry (main.py lines 121–125). -/
structure HighTweet where
  text : String
  engagement : ℚ
  id : ℕ
deriving DecidableEq

/-- Posts with engagement score above 10, in input order (main.py lines 119–125). -/
def high_engagement_tweets (posts : List Post) : List HighTweet :=
  posts.filterMap (fun p =>
    if 10 < engagement_score p then
      some { text := p.text, engagement := engagement_score p, id := p.id }
    else none)

/-- `high_engagement_tweets.sort(key=engagement, reverse=True)` then `[:3]`
(main.py lines 141 and 149). -/
def high_engagement_top (posts : List Post) : List HighTweet :=
  (sortKeyed (fun t => t.engagement) (high_engagement_tweets posts)).take 3

/-- The analysis dict as completed by `run_twitter_bot` (main.py lines
100–150): the analyzer's hashtags and phrases plus the top-3 high-engagement
tweets and top-5 conversations. -/
structure AnalysisResult where
  hashtags : List (String × ℕ)
  phrases : List (String × ℕ)
  high_engagement : List HighTweet
  top_conversations : List (String × ConvBucket)
deriving DecidableEq

/-- Building the completed `analysis_results` for a run (main.py lines 100–150). -/
def buildAnalysisResult (posts : List Post) : AnalysisResult :=
  let a := analyze_trending_topics posts
  { hashtags := a.hashtags, phrases := a.phrases,
    high_engagement := high_engagement_top posts,
    top_conversations := top_conversations posts }

/-- Modelled from the spec: §3's "the 3 highest-`EngagementScore` posts" read
literally — the whole input ranked by score descending, first three kept. -/
def specHighestPosts (posts : List Post) : List Post :=
  (sortKeyed engagement_score posts).take 3

/-! ### Summary rendering (main.py `create_summary`, lines 107–149)

`datetime.now()` is the only effect in `create_summary`; the formatted date
becomes an explicit parameter.  Counts are rendered in decimal and the
`:.0f` float format becomes round-half-to-even on the rational engagement. -/

/-- Decimal digits of `n`, most significant first; the fuel argument (any
bound above the digit count) keeps the recursion structural. -/
def natDigitsAux : ℕ → ℕ → List Char
  | 0, _ => []
  | fuel + 1, n =>
      if n < 10 then [Nat.digitChar n]
      else natDigitsAux fuel (n / 10) ++ [Nat.digitChar (n % 10)]

/-- Python `str` of a nonnegative integer. -/
def natRepr (n : ℕ) : String := String.mk (natDigitsAux (n + 1) n)

/-- Python's `:.0f` format on an exact rational: round half to even. -/
def pyRound (x : ℚ) : ℤ :=
  if x - ⌊x⌋ < 1 / 2 then ⌊x⌋
  else if 1 / 2 < x - ⌊x⌋ then ⌊x⌋ + 1
  else if 2 ∣ ⌊x⌋ then ⌊x⌋ else ⌊x⌋ + 1

/-- Python `str` of an integer. -/
def intRepr (z : ℤ) : String := if z < 0 then "-" ++ natRepr z.natAbs else natRepr z.toNat

/-- One numbered hashtag line body: `{i}. #{hashtag} ({count} weighted mentions)`. -/
def hashtagLine (i : ℕ) (e : String × ℕ) : String :=
  natRepr i ++ ". #" ++ e.1 ++ " (" ++ natRepr e.2 ++ " weighted mentions)"

/-- One numbered phrase line body: `{i}. {phrase} ({count} mentions)`. -/
def phraseLine (i : ℕ) (e : String × ℕ) : String :=
  natRepr i ++ ". " ++ e.1 ++ " (" ++ natRepr e.2 ++ " mentions)"

/-- One numbered discussion line body (main.py line 134). -/
def convLine (i : ℕ) (e : String × ConvBucket) : String :=
  natRepr i ++ ". \"" ++ e.2.sample_text ++ "...\" (" ++ natRepr e.2.count
    ++ " replies, " ++ intRepr (pyRound e.2.engagement) ++ " engagement)"

/-- `enumerate(l, 1)` rendered through `f`. -/
def numbered {α : Type} (f : ℕ → α → String) (l : List α) : List String :=
  l.enum.map (fun e => f (e.1 + 1) e.2)

/-- Concatenation of the given lines, each followed by a newline. -/
def linesBlock : List String → String
  | [] => ""
  | s :: ss => s ++ "\n" ++ linesBlock ss

/-- Top-hashtags section (lines 116–120), empty when the list is empty:
the header line, a numbered line per entry, and a blank line. -/
def hashtagSection (l : List (String × ℕ)) : String :=
  if l.isEmpty then ""
  else linesBlock ("🔥 Top Hashtags:" :: numbered hashtagLine (l.take 5) ++ [""])

/-- Trending-phrases section (lines 123–127), empty when the list is empty. -/
def phraseSection (l : List (String × ℕ)) : String :=
  if l.isEmpty then ""
  else linesBlock ("💬 Trending Topics:" :: numbered phraseLine (l.take 5) ++ [""])

/-- Most-active-discussions section (lines 130–135), empty when the list is
empty. -/
def convSection (l : List (String × ConvBucket)) : String :=
  if l.isEmpty then ""
  else linesBlock ("🗣️ Most Active Discussions:" :: numbered convLine (l.take 3) ++ [""])

/-- The clipped preview of the most engaging tweet (line 142): up to 100
characters, with an ellipsis when clipped. -/
def tweetPreview (t : HighTweet) : String :=
  if 100 < t.text.data.length then String.mk (t.text.data.take 100) ++ "..." else t.text

/-- Most-engaging-tweet section (lines 138–144), empty when the list is empty. -/
def engagementSection (l : List HighTweet) : String :=
  match l with
  | [] => ""
  | t :: _ =>
      linesBlock ["⭐ Most Engaging Tweet:", "\"" ++ tweetPreview t ++ "\"",
        "Engagement score: " ++ intRepr (pyRound t.engagement), ""]

/-- Header line with the run date (line 113), followed by a blank line. -/
def headerLine (date : String) : String :=
  linesBlock ["📊 Nigerian UK Community Trends: " ++ date ++ " 📊", ""]

/-- Footer line with the analyzed-post count (line 147). -/
def footerLine (tweet_count : ℕ) : String :=
  "Today's activity: " ++ natRepr tweet_count ++ " tweets analyzed from Nigerians in the UK"

/-- `create_summary(analysis_results, tweet_count)` (main.py lines 107–149). -/
def create_summary (date : String) (a : AnalysisResult) (tweet_count : ℕ) : String :=
  headerLine date ++ hashtagSection a.hashtags ++ phraseSection a.phrases
    ++ convSection a.top_conversations ++ engagementSection a.high_engagement
    ++ footerLine tweet_count

/-! ### Re-parsing the numbered sections

Modelled from the spec: §8's round-trip property speaks of "re-parsing the
numbered sections back into (label, count) pairs"; no parser exists in the
sources, so the obvious inverse is defined here — find the section header
line, take its numbered lines, and split each at the rightmost `" ("`. -/

/-- A string without newline characters (one rendered line cannot span two). -/
def nlFree (s : String) : Prop := '\n' ∉ s.data

/-- Splitting a character list at newlines (`str.split("\n")`). -/
def splitLines : List Char → List (List Char)
  | [] => [[]]
  | c :: cs =>
      if c = '\n' then [] :: splitLines cs
      else
        match splitLines cs with
        | [] => [[c]]
        | l :: ls => (c :: l) :: ls

/-- The lines following the first occurrence of the header line, up to the
first blank line. -/
def sectionLines (hdr : List Char) : List (List Char) → List (List Char)
  | [] => []
  | l :: ls => if l = hdr then ls.takeWhile (fun x => !x.isEmpty) else sectionLines hdr ls

/-- Decimal digits back to a number. -/
def parseNat (cs : List Char) : ℕ := cs.foldl (fun n c => 10 * n + (c.toNat - 48)) 0

/-- Splits `LABEL ++ " (" ++ DIGITS` at the rightmost `" ("` (the digits
contain no parenthesis, so scanning from the right is unambiguous). -/
def splitCount (cs : List Char) : List Char × ℕ :=
  let rev := cs.reverse
  (((rev.dropWhile (fun c => !(c = '('))).drop 2).reverse,
    parseNat (rev.takeWhile (fun c => !(c = '('))).reverse)

/-- Drops `k` characters from the right. -/
def stripEnd (k : ℕ) (cs : List Char) : List Char := cs.take (cs.length - k)

/-- Parses one hashtag line: drop the `N. #` prefix and the
` weighted mentions)` suffix, split label and count. -/
def parseHashtagLine (line : List Char) : String × ℕ :=
  let body := stripEnd 19 (line.drop 4)
  let r := splitCount body
  (String.mk r.1, r.2)

/-- Parses one phrase line: drop the `N. ` prefix and the ` mentions)` suffix,
split label and count. -/
def parsePhraseLine (line : List Char) : String × ℕ :=
  let body := stripEnd 10 (line.drop 3)
  let r := splitCount body
  (String.mk r.1, r.2)

/-- Recovers the (hashtag, count) pairs from a rendered summary. -/
def parse_hashtags (summary : String) : List (String × ℕ) :=
  (sectionLines "🔥 Top Hashtags:".data (splitLines summary.data)).map parseHashtagLine

/-- Recovers the (phrase, count) pairs from a rendered summary. -/
def parse_phrases (summary : String) : List (String × ℕ) :=
  (sectionLines "💬 Trending Topics:".data (splitLines summary.data)).map parsePhraseLine

/-! ### Engagement scoring (claims C2, C3) -/

theorem dictGetD_perm {m m' : List (String × ℕ)} (h : m.Perm m')
    (hn : (m.map Prod.fst).Nodup) (k : String) : dictGetD m k = dictGetD m' k := by
  unfold dictGetD
  cases hf : m.find? (fun p => p.1 == k) with
  | none =>
      rw [List.find?_eq_none] at hf
      have : m'.find? (fun p => p.1 == k) = none :=
        List.find?_eq_none.mpr (fun x hx => hf x (h.mem_iff.mpr hx))
      rw [this]
  | some p =>
      have hp : p ∈ m := List.mem_of_find?_eq_some hf
      have hpk : p.1 = k := by simpa using List.find?_some hf
      have hsome : (m'.find? (fun q => q.1 == k)).isSome :=
        List.find?_isSome.mpr ⟨p, h.mem_iff.mp hp, by simp [hpk]⟩
      obtain ⟨q, hq⟩ := Option.isSome_iff_exists.mp hsome
      have hqk : q.1 = k := by simpa using List.find?_some hq
      have hqm : q ∈ m := h.mem_iff.mpr (List.mem_of_find?_eq_some hq)
      have hpq : p = q := List.inj_on_of_nodup_map hn hp hqm (hpk.trans hqk.symm)
      rw [hq, ← hpq]

/-- C2: the engagement score equals `likes + 2*retweets + 1.5*replies +
1.8*quotes` with every missing metric (or wholly absent metrics mapping)
treated as 0; it is always defined, nonnegative, and invariant under
reordering of the metrics mapping's keys. -/
theorem C2_engagement_score (p : Post) :
    0 ≤ engagement_score p
    ∧ (p.metrics = none → engagement_score p = 0)
    ∧ (∀ m, p.metrics = some m →
        engagement_score p =
          (dictGetD m "like_count" : ℚ) + 2 * dictGetD m "retweet_count"
            + (3 / 2) * dictGetD m "reply_count" + (9 / 5) * dictGetD m "quote_count")
    ∧ (∀ m m', p.metrics = some m → m.Perm m' → (m.map Prod.fst).Nodup →
        engagement_score p = engagement_score { p with metrics := some m' }) := by
  refine ⟨?_, ?_, ?_, ?_⟩
  · unfold engagement_score
    cases p.metrics with
    | none => norm_num
    | some m => positivity
  · intro h; simp [engagement_score, h]
  · intro m h; simp [engagement_score, h]; ring
  · intro m m' h hperm hnd
    simp only [engagement_score, h]
    rw [dictGetD_perm hperm hnd "like_count", dictGetD_perm hperm hnd "retweet_count",
      dictGetD_perm hperm hnd "reply_count", dictGetD_perm hperm hnd "quote_count"]

/-- Witness for C2 at a concrete post: reordering the metrics dict keys leaves
the score unchanged. -/
theorem C2_engagement_score_witness :
    engagement_score ⟨1, "t", some [("like_count", 3), ("retweet_count", 4)], none, none⟩
      = engagement_score { (⟨1, "t", some [("like_count", 3), ("retweet_count", 4)],
          none, none⟩ : Post) with
          metrics := some [("retweet_count", 4), ("like_count", 3)] } :=
  (C2_engagement_score _).2.2.2 [("like_count", 3), ("retweet_count", 4)]
    [("retweet_count", 4), ("like_count", 3)] rfl (by decide) (by decide)

theorem count_flatten_replicate (w : ℕ) (l : List String) (t : String) :
    ((List.replicate w l).flatten.count t) = w * l.count t := by
  induction w with
  | zero => simp
  | succ n ih =>
      rw [List.replicate_succ, List.flatten_cons, List.count_append, ih]
      ring

theorem hashtagWeight_eq_max_floor (q : ℚ) :
    hashtagWeight q = max 1 (⌊q / 10⌋).toNat := by
  unfold hashtagWeight
  rcases le_total 1 (q / 10) with h | h
  · rw [max_eq_right h]
    have h1 : (1 : ℤ) ≤ ⌊q / 10⌋ := Int.le_floor.mpr (by exact_mod_cast h)
    omega
  · rw [max_eq_left h, Int.floor_one]
    have h1 : ⌊q / 10⌋ ≤ 1 := by
      calc ⌊q / 10⌋ ≤ ⌊(1 : ℚ)⌋ := Int.floor_le_floor h
        _ = 1 := Int.floor_one
    omega

/-- The example post of §8: `{text: "Hello #A #A", hashtags: ["A"],
metrics: {like_count: 20}, conv: "c1"}`. -/
def examplePost : Post :=
  ⟨7, "Hello #A #A", some [("like_count", 20)], some ["A"], some "c1"⟩

/-- C3: each post's hashtags (lowercased) are credited to the tally exactly
`max(1, floor(score/10))` times each, and on the §8 example post this gives
score 20, weight 2, and the tally `{"a": 2}`. -/
theorem C3_hashtag_weighting (p : Post) (tags : List String)
    (htags : p.hashtags = some tags) :
    (∀ t, (postHashtags p).count t
        = hashtagWeight (engagement_score p) * ((tags.map lowerStr).count t))
    ∧ hashtagWeight (engagement_score p) = max 1 (⌊engagement_score p / 10⌋).toNat
    ∧ engagement_score examplePost = 20
    ∧ hashtagWeight (engagement_score examplePost) = 2
    ∧ counter (all_hashtags [examplePost]) = [("a", 2)] := by
  have hscore : engagement_score examplePost = 20 := by
    have h : engagement_score examplePost
        = ((20 : ℕ) : ℚ) + ((0 : ℕ) : ℚ) * 2 + ((0 : ℕ) : ℚ) * (3 / 2)
          + ((0 : ℕ) : ℚ) * (9 / 5) := rfl
    rw [h]; norm_num
  have hweight : hashtagWeight (engagement_score examplePost) = 2 := by
    rw [hscore]; unfold hashtagWeight
    norm_num
    decide
  refine ⟨?_, hashtagWeight_eq_max_floor _, hscore, hweight, ?_⟩
  · intro t
    simp [postHashtags, htags, count_flatten_replicate]
  · have hall : all_hashtags [examplePost]
        = (List.replicate (hashtagWeight (engagement_score examplePost))
            (["A"].map lowerStr)).flatten := by
      simp [all_hashtags, postHashtags, examplePost]
    rw [hall, hweight]
    decide

/-- Witness for C3 at the §8 example post. -/
theorem C3_hashtag_weighting_witness :
    (postHashtags examplePost).count "a"
      = hashtagWeight (engagement_score examplePost) * ((["A"].map lowerStr).count "a") :=
  (C3_hashtag_weighting examplePost ["A"] rfl).1 "a"

/-! ### Degenerate inputs and mining failure (claims C4, C5, C6) -/

theorem top_hashtags_nil : top_hashtags [] = [] := by
  simp [top_hashtags, all_hashtags, counter, sortKeyed]

theorem analyze_nil : analyze_trending_topics [] = ⟨[], []⟩ := by
  simp [analyze_trending_topics, cleaned_texts, top_hashtags_nil]

theorem buildAnalysisResult_nil : buildAnalysisResult [] = ⟨[], [], [], []⟩ := by
  simp [buildAnalysisResult, analyze_nil, high_engagement_top, high_engagement_tweets,
    top_conversations, top_conversations_all, sortKeyed]

/-- C4: the empty input is a non-error case — the analyzer returns empty
hashtag and phrase lists, and the rendered summary for the empty result with
post count 0 is exactly the header line followed by the footer line. -/
theorem C4_empty_input :
    (analyze_trending_topics []).hashtags = []
    ∧ (analyze_trending_topics []).phrases = []
    ∧ ∀ date, create_summary date (buildAnalysisResult []) 0
        = headerLine date ++ footerLine 0 := by
  refine ⟨by simp [analyze_nil], by simp [analyze_nil], ?_⟩
  intro date
  simp [create_summary, buildAnalysisResult_nil, hashtagSection, phraseSection,
    convSection, engagementSection, String.append_empty]

/-- C5: with exactly one input post, the phrase list is empty regardless of
the post's text — mining is skipped below 2 cleaned texts. -/
theorem C5_single_post_no_phrases (p : Post) :
    (analyze_trending_topics [p]).phrases = [] := by
  simp [analyze_trending_topics, cleaned_texts]

/-- C6: a phrase-mining failure is caught locally — the phrase list degrades
to empty while the hashtag component equals, on every input, the weighted
top-10 tally computed before mining, so the failure never propagates out of
the analyzer. -/
theorem C6_mining_failure_recovery (posts : List Post)
    (hfail : minePhrases (cleaned_texts posts) = none) :
    (analyze_trending_topics posts).phrases = []
    ∧ (analyze_trending_topics posts).hashtags = top_hashtags posts := by
  unfold analyze_trending_topics
  by_cases h : (cleaned_texts posts).length < 2
  · simp [h]
  · simp [h, hfail]

/- Witness for C6: two posts whose texts clean to nothing make the vectorizer
fail (empty vocabulary), and the analyzer still returns with empty phrases. -/
unseal List.mergeSort List.merge in
theorem C6_mining_failure_recovery_witness :
    (analyze_trending_topics [⟨1, "", none, none, none⟩, ⟨2, "", none, none, none⟩]).phrases = []
    ∧ (analyze_trending_topics [⟨1, "", none, none, none⟩, ⟨2, "", none, none, none⟩]).hashtags
        = top_hashtags [⟨1, "", none, none, none⟩, ⟨2, "", none, none, none⟩] :=
  C6_mining_failure_recovery [⟨1, "", none, none, none⟩, ⟨2, "", none, none, none⟩] (by decide)

/-! ### Hashtag tally ordering (claim C7) -/

theorem counter_append_singleton (l : List String) (x : String) :
    counter (l ++ [x]) = counterStep (counter l) x := by
  rw [counter, List.foldl_append]
  rfl

theorem counterStep_map_fst (acc : List (String × ℕ)) (x : String) :
    (counterStep acc x).map Prod.fst
      = if acc.any (fun p => p.1 == x) then acc.map Prod.fst
        else acc.map Prod.fst ++ [x] := by
  by_cases h : acc.any (fun p => p.1 == x)
  · simp only [counterStep, h, if_true, List.map_map]
    refine List.map_congr_left ?_
    intro p _
    by_cases h2 : p.1 == x <;> simp [h2, Function.comp]
  · simp [counterStep, h]

theorem counter_mem_fst (l : List String) :
    ∀ x, x ∈ (counter l).map Prod.fst ↔ x ∈ l := by
  induction l using List.reverseRecOn with
  | nil => simp [counter]
  | append_singleton l a ih =>
      intro x
      rw [counter_append_singleton, counterStep_map_fst]
      split
      · rename_i h
        rw [List.any_eq_true] at h
        obtain ⟨p, hp, hpa⟩ := h
        have ha : a ∈ l :=
          (ih a).mp (List.mem_map.mpr ⟨p, hp, by simpa using hpa⟩)
        simp only [ih x, List.mem_append, List.mem_singleton]
        constructor
        · exact fun h => Or.inl h
        · rintro (h | rfl)
          · exact h
          · exact ha
      · simp [ih x]

theorem counter_nodup_fst (l : List String) : ((counter l).map Prod.fst).Nodup := by
  induction l using List.reverseRecOn with
  | nil => simp [counter]
  | append_singleton l a ih =>
      rw [counter_append_singleton, counterStep_map_fst]
      split
      · exact ih
      · rename_i h
        rw [List.any_eq_true] at h
        push_neg at h
        rw [List.nodup_append]
        refine ⟨ih, List.nodup_singleton a, ?_⟩
        intro y hy hya
        rw [List.mem_singleton] at hya
        subst hya
        obtain ⟨p, hp, hpy⟩ := List.mem_map.mp hy
        exact h p hp (by simp [hpy])

theorem counter_pairwise_indexOf (l : List String) :
    (counter l).Pairwise (fun a b => l.indexOf a.1 < l.indexOf b.1) := by
  induction l using List.reverseRecOn with
  | nil => simp [counter]
  | append_singleton l a ih =>
      rw [counter_append_singleton]
      have hmem_l : ∀ p ∈ counter l, p.1 ∈ l := fun p hp =>
        (counter_mem_fst l p.1).mp (List.mem_map.mpr ⟨p, hp, rfl⟩)
      have hidx : ∀ p ∈ counter l,
          (l ++ [a]).indexOf p.1 = l.indexOf p.1 := fun p hp =>
        List.indexOf_append_of_mem (hmem_l p hp)
      unfold counterStep
      split
      · rw [List.pairwise_map]
        refine ih.imp_of_mem ?_
        intro p q hp hq hlt
        have h1 : ((if p.1 == a then (p.1, p.2 + 1) else p) : String × ℕ).1 = p.1 := by
          split <;> rfl
        have h2 : ((if q.1 == a then (q.1, q.2 + 1) else q) : String × ℕ).1 = q.1 := by
          split <;> rfl
        rw [h1, h2, hidx p hp, hidx q hq]
        exact hlt
      · rename_i h
        rw [List.any_eq_true] at h
        push_neg at h
        rw [List.pairwise_append]
        refine ⟨ih.imp_of_mem ?_, List.pairwise_singleton _ _, ?_⟩
        · intro p q hp hq hlt
          rw [hidx p hp, hidx q hq]
          exact hlt
        · intro p hp b hb
          rw [List.mem_singleton] at hb
          subst hb
          have ha : a ∉ l := by
            intro hal
            obtain ⟨q, hq, hqa⟩ := List.mem_map.mp ((counter_mem_fst l a).mpr hal)
            exact h q hq (by simp [hqa])
          rw [hidx p hp, List.indexOf_append_of_not_mem ha]
          simp only [List.indexOf_cons_self, Nat.add_zero]
          exact List.indexOf_lt_length.mpr (hmem_l p hp)

/-- C7: the hashtag list has length at most 10, its weighted counts are
non-increasing, and entries with equal counts appear in the order their tags
were first encountered in the weighted hashtag stream built by scanning the
posts in input order. -/
theorem C7_top_hashtags_order (posts : List Post) :
    (top_hashtags posts).length ≤ 10
    ∧ (top_hashtags posts).Pairwise (fun a b => b.2 ≤ a.2)
    ∧ (top_hashtags posts).Pairwise (fun a b => a.2 = b.2 →
        (all_hashtags posts).indexOf a.1 < (all_hashtags posts).indexOf b.1) := by
  refine ⟨?_, ?_, ?_⟩
  · rw [top_hashtags]
    exact List.length_take_le 10 _
  · exact List.Pairwise.sublist (List.take_sublist _ _)
      (sortKeyed_pairwise_key (fun e => e.2) (counter (all_hashtags posts)))
  · exact List.Pairwise.sublist (List.take_sublist _ _)
      (sortKeyed_pairwise_of_pairwise (fun e => e.2) (counter_pairwise_indexOf _))

/-! ### Conversation buckets (claim C8) -/

theorem conv_append_singleton (posts : List Post) (p : Post) :
    top_conversations_all (posts ++ [p]) = convStep (top_conversations_all posts) p := by
  rw [top_conversations_all, List.foldl_append]
  rfl

theorem convStep_none {acc : List (String × ConvBucket)} {p : Post}
    (hc : postConv p = none) : convStep acc p = acc := by
  simp [convStep, hc]

theorem convStep_bump {acc : List (String × ConvBucket)} {p : Post} {c : String}
    (hc : postConv p = some c) (h : acc.any (fun e => e.1 == c)) :
    convStep acc p = acc.map (fun e =>
      if e.1 == c then
        (e.1, ⟨e.2.count + 1, e.2.engagement + engagement_score p, e.2.sample_text⟩)
      else e) := by
  simp [convStep, hc, h]

theorem convStep_new {acc : List (String × ConvBucket)} {p : Post} {c : String}
    (hc : postConv p = some c) (h : ¬ acc.any (fun e => e.1 == c)) :
    convStep acc p = acc ++ [(c, ⟨1, engagement_score p, String.mk (p.text.data.take 100)⟩)] := by
  simp [convStep, hc, h]

theorem convStep_key_mono (acc : List (String × ConvBucket)) (p : Post) (c : String)
    (h : acc.any (fun e => e.1 == c)) : (convStep acc p).any (fun e => e.1 == c) := by
  rw [List.any_eq_true] at h ⊢
  obtain ⟨e, he, hec⟩ := h
  cases hpc : postConv p with
  | none => exact ⟨e, by rw [convStep_none hpc]; exact he, hec⟩
  | some c0 =>
      by_cases hk : acc.any (fun e => e.1 == c0)
      · rw [convStep_bump hpc hk]
        by_cases hbc : e.1 == c0
        · exact ⟨(e.1, ⟨e.2.count + 1, e.2.engagement + engagement_score p,
            e.2.sample_text⟩), List.mem_map.mpr ⟨e, he, by rw [if_pos hbc]⟩, hec⟩
        · exact ⟨e, List.mem_map.mpr ⟨e, he, by rw [if_neg hbc]⟩, hec⟩
      · rw [convStep_new hpc hk]
        exact ⟨e, List.mem_append.mpr (Or.inl he), hec⟩

theorem convStep_key_self (acc : List (String × ConvBucket)) (p : Post) (c : String)
    (hc : postConv p = some c) : (convStep acc p).any (fun e => e.1 == c) := by
  by_cases hk : acc.any (fun e => e.1 == c)
  · rw [convStep_bump hc hk, List.any_eq_true]
    rw [List.any_eq_true] at hk
    obtain ⟨e, he, hec⟩ := hk
    exact ⟨(e.1, ⟨e.2.count + 1, e.2.engagement + engagement_score p, e.2.sample_text⟩),
      List.mem_map.mpr ⟨e, he, by rw [if_pos hec]⟩, hec⟩
  · rw [convStep_new hc hk, List.any_eq_true]
    exact ⟨(c, ⟨1, engagement_score p, String.mk (p.text.data.take 100)⟩),
      List.mem_append.mpr (Or.inr (List.mem_singleton_self _)), by simp⟩

theorem conv_key_of_post (posts : List Post) (c : String) :
    (∃ q ∈ posts, postConv q = some c) →
    (top_conversations_all posts).any (fun e => e.1 == c) := by
  induction posts using List.reverseRecOn with
  | nil => rintro ⟨q, hq, _⟩; cases hq
  | append_singleton posts p ih =>
      rintro ⟨q, hq, hqc⟩
      rw [conv_append_singleton]
      rcases List.mem_append.mp hq with hmem | hmem
      · exact convStep_key_mono _ _ _ (ih ⟨q, hmem, hqc⟩)
      · rw [List.mem_singleton] at hmem
        subst hmem
        exact convStep_key_self _ _ _ hqc

theorem conv_buckets_spec (posts : List Post) :
    ∀ cid b, (cid, b) ∈ top_conversations_all posts →
      b.count = (posts.filter (fun q => decide (postConv q = some cid))).length
      ∧ b.engagement
          = ((posts.filter (fun q => decide (postConv q = some cid))).map engagement_score).sum
      ∧ ∃ q qs, posts.filter (fun q => decide (postConv q = some cid)) = q :: qs
          ∧ b.sample_text = String.mk (q.text.data.take 100) := by
  induction posts using List.reverseRecOn with
  | nil =>
      intro cid b h
      simp [top_conversations_all] at h
  | append_singleton posts p ih =>
      intro cid b hmem
      rw [conv_append_singleton] at hmem
      have hkeep : ∀ c, postConv p ≠ some c →
          (posts ++ [p]).filter (fun q => decide (postConv q = some c))
            = posts.filter (fun q => decide (postConv q = some c)) := by
        intro c hne
        rw [List.filter_append]
        simp [List.filter, hne]
      cases hc : postConv p with
      | none =>
          rw [convStep_none hc] at hmem
          have hne : postConv p ≠ some cid := by
            rw [hc]
            exact fun h => Option.noConfusion h
          rw [hkeep cid hne]
          exact ih cid b hmem
      | some c0 =>
          have hgrow : (posts ++ [p]).filter (fun q => decide (postConv q = some c0))
              = posts.filter (fun q => decide (postConv q = some c0)) ++ [p] := by
            rw [List.filter_append]
            simp [List.filter, hc]
          by_cases hk : (top_conversations_all posts).any (fun e => e.1 == c0)
          · rw [convStep_bump hc hk] at hmem
            obtain ⟨⟨cid0, b0⟩, hb0, heq⟩ := List.mem_map.mp hmem
            by_cases hbc : cid0 == c0
            · rw [if_pos hbc] at heq
              have hcid : cid0 = cid := congrArg Prod.fst heq
              have hb : (⟨b0.count + 1, b0.engagement + engagement_score p,
                  b0.sample_text⟩ : ConvBucket) = b := congrArg Prod.snd heq
              have hcc : cid = c0 := by rw [← hcid]; simpa using hbc
              obtain ⟨h1, h2, q, qs, hql, hqs⟩ := ih cid0 b0 hb0
              rw [hcid, hcc] at h1 h2 hql
              rw [← hb, hcc]
              refine ⟨?_, ?_, q, qs ++ [p], ?_, ?_⟩
              · show b0.count + 1 = _
                rw [hgrow, List.length_append, h1]
                rfl
              · show b0.engagement + engagement_score p = _
                rw [hgrow, List.map_append, List.sum_append, h2]
                simp
              · rw [hgrow, hql]
                rfl
              · exact hqs
            · rw [if_neg hbc] at heq
              have hcid : cid0 = cid := congrArg Prod.fst heq
              have hb : b0 = b := congrArg Prod.snd heq
              have hne : postConv p ≠ some cid := by
                rw [hc]
                intro hcon
                rw [Option.some_inj] at hcon
                rw [← hcid] at hcon
                exact absurd (by simp [hcon]) hbc
              rw [← hcid, ← hb, hkeep cid0 (hcid ▸ hne)]
              exact ih cid0 b0 hb0
          · rw [convStep_new hc hk] at hmem
            rcases List.mem_append.mp hmem with hold | hnew
            · have hne : postConv p ≠ some cid := by
                rw [hc]
                intro hcon
                rw [Option.some_inj] at hcon
                exact hk (List.any_eq_true.mpr ⟨(cid, b), hold, by simp [hcon]⟩)
              rw [hkeep cid hne]
              exact ih cid b hold
            · rw [List.mem_singleton, Prod.mk.injEq] at hnew
              obtain ⟨hcid, hb⟩ := hnew
              subst hcid
              have hnil : posts.filter (fun q => decide (postConv q = some cid)) = [] := by
                rw [List.filter_eq_nil_iff]
                intro q hq hdec
                rw [decide_eq_true_eq] at hdec
                exact hk (conv_key_of_post posts cid ⟨q, hq, hdec⟩)
              rw [hb, hgrow, hnil]
              exact ⟨rfl, by simp, p, [], rfl, rfl⟩

/-- First post of the §8 conversation example (score 5, thread "c1"). -/
def convPost1 : Post := ⟨11, "first conv post", some [("like_count", 5)], none, some "c1"⟩

/-- Second post of the §8 conversation example (score 8, thread "c1"). -/
def convPost2 : Post := ⟨12, "second conv post", some [("like_count", 8)], none, some "c1"⟩

/-- C8: every conversation bucket holds the number of posts sharing its
conversation id, the sum of their engagement scores, and the first such post's
text truncated to 100 characters; on the §8 two-post example the single bucket
is `{count 2, engagement 13, sample_text = first post's text}`; and the final
list is the top 5, non-increasing under the composite key (count, engagement). -/
theorem C8_conversation_buckets (posts : List Post) :
    (∀ cid b, (cid, b) ∈ top_conversations_all posts →
      b.count = (posts.filter (fun q => decide (postConv q = some cid))).length
      ∧ b.engagement
          = ((posts.filter (fun q => decide (postConv q = some cid))).map engagement_score).sum
      ∧ ∃ q qs, posts.filter (fun q => decide (postConv q = some cid)) = q :: qs
          ∧ b.sample_text = String.mk (q.text.data.take 100))
    ∧ (top_conversations posts).length ≤ 5
    ∧ (top_conversations posts).Pairwise (fun a b =>
        toLex (b.2.count, b.2.engagement) ≤ toLex (a.2.count, a.2.engagement))
    ∧ top_conversations_all [convPost1, convPost2]
        = [("c1", ⟨2, 13, convPost1.text⟩)] := by
  have s1 : engagement_score convPost1 = 5 := by
    have h : engagement_score convPost1
        = ((5 : ℕ) : ℚ) + ((0 : ℕ) : ℚ) * 2 + ((0 : ℕ) : ℚ) * (3 / 2)
          + ((0 : ℕ) : ℚ) * (9 / 5) := rfl
    rw [h]; norm_num
  have s2 : engagement_score convPost2 = 8 := by
    have h : engagement_score convPost2
        = ((8 : ℕ) : ℚ) + ((0 : ℕ) : ℚ) * 2 + ((0 : ℕ) : ℚ) * (3 / 2)
          + ((0 : ℕ) : ℚ) * (9 / 5) := rfl
    rw [h]; norm_num
  refine ⟨conv_buckets_spec posts, ?_, ?_, ?_⟩
  · rw [top_conversations]
    exact List.length_take_le 5 _
  · exact List.Pairwise.sublist (List.take_sublist _ _)
      (sortKeyed_pairwise_key (fun e => toLex (e.2.count, e.2.engagement))
        (top_conversations_all posts))
  · have hc1 : postConv convPost1 = some "c1" := rfl
    have hc2 : postConv convPost2 = some "c1" := rfl
    have hstep : top_conversations_all [convPost1, convPost2]
        = convStep (convStep [] convPost1) convPost2 := rfl
    have htext : String.mk (convPost1.text.data.take 100) = convPost1.text := rfl
    rw [hstep, convStep_new hc1 (by simp), convStep_bump hc2 (by simp), htext]
    norm_num [s1, s2]

/-- Witness for C8: the §8 example bucket satisfies the characterization. -/
theorem C8_conversation_buckets_witness :
    (⟨2, 13, convPost1.text⟩ : ConvBucket).count
        = ([convPost1, convPost2].filter (fun q => decide (postConv q = some "c1"))).length
    ∧ (⟨2, 13, convPost1.text⟩ : ConvBucket).engagement
        = (([convPost1, convPost2].filter
            (fun q => decide (postConv q = some "c1"))).map engagement_score).sum
    ∧ ∃ q qs, [convPost1, convPost2].filter (fun q => decide (postConv q = some "c1"))
          = q :: qs
        ∧ (⟨2, 13, convPost1.text⟩ : ConvBucket).sample_text
            = String.mk (q.text.data.take 100) :=
  (C8_conversation_buckets [convPost1, convPost2]).1 "c1" ⟨2, 13, convPost1.text⟩
    (by rw [(C8_conversation_buckets [convPost1, convPost2]).2.2.2]
        exact List.mem_singleton_self _)

/-! ### The completed analysis result (claim C1) -/

theorem minePhrases_length {docs : List String} {ps : List (String × ℕ)}
    (h : minePhrases docs = some ps) : ps.length ≤ 10 := by
  simp only [minePhrases] at h
  split at h
  · cases h
  · rw [Option.some_inj] at h
    rw [← h]
    exact List.length_take_le _ _

theorem analyze_hashtags_eq (posts : List Post) :
    (analyze_trending_topics posts).hashtags = top_hashtags posts := by
  simp only [analyze_trending_topics]
  split
  · rfl
  · split <;> rfl

theorem analyze_phrases_length (posts : List Post) :
    (analyze_trending_topics posts).phrases.length ≤ 10 := by
  simp only [analyze_trending_topics]
  split
  · simp
  · split
    · rename_i ps hps
      exact minePhrases_length hps
    · simp

theorem analyze_phrases_lt2 (posts : List Post)
    (h : (cleaned_texts posts).length < 2) :
    (analyze_trending_topics posts).phrases = [] := by
  simp only [analyze_trending_topics]
  rw [if_pos h]

theorem analyze_phrases_of_none (posts : List Post)
    (hm : minePhrases (cleaned_texts posts) = none) :
    (analyze_trending_topics posts).phrases = [] := by
  simp only [analyze_trending_topics]
  by_cases h : (cleaned_texts posts).length < 2
  · rw [if_pos h]
  · rw [if_neg h, hm]

theorem analyze_phrases_some (posts : List Post) (ps : List (String × ℕ))
    (h2 : ¬ (cleaned_texts posts).length < 2)
    (hm : minePhrases (cleaned_texts posts) = some ps) :
    (analyze_trending_topics posts).phrases = ps := by
  simp only [analyze_trending_topics]
  rw [if_neg h2, hm]

theorem analyze_phrases_sorted (posts : List Post) :
    (analyze_trending_topics posts).phrases.Pairwise (fun a b => b.2 ≤ a.2) := by
  simp only [analyze_trending_topics]
  split
  · simp
  · split
    · rename_i ps hps
      simp only [minePhrases] at hps
      split at hps
      · cases hps
      · rw [Option.some_inj] at hps
        show ps.Pairwise _
        rw [← hps]
        exact List.Pairwise.sublist (List.take_sublist _ _)
          (sortKeyed_pairwise_key (fun pr : String × ℕ => pr.2) _)
    · simp

theorem high_engagement_tweets_gt (posts : List Post) :
    ∀ t ∈ high_engagement_tweets posts, 10 < t.engagement := by
  intro t ht
  rw [high_engagement_tweets, List.mem_filterMap] at ht
  obtain ⟨p, hp, hfp⟩ := ht
  by_cases hs : 10 < engagement_score p
  · rw [if_pos hs, Option.some_inj] at hfp
    rw [← hfp]
    exact hs
  · rw [if_neg hs] at hfp
    cases hfp

/-- C1 (amended): the completed analysis result carries all four components —
the top-10 weighted hashtag entries; the top-10 phrase entries by count (the
mined (phrase, count) list sorted by count descending and truncated to 10,
carried verbatim; empty exactly when fewer than two cleaned texts are
available or mining fails); the up-to-3 highest-scoring entries among the
posts with engagement score above 10 (sorted descending); and the top-5
conversation buckets ranked by (count, engagement) descending. -/
theorem C1_analysis_result (posts : List Post) :
    (buildAnalysisResult posts).hashtags = top_hashtags posts
    ∧ (buildAnalysisResult posts).hashtags.length ≤ 10
    ∧ (buildAnalysisResult posts).phrases.length ≤ 10
    ∧ (buildAnalysisResult posts).phrases.Pairwise (fun a b => b.2 ≤ a.2)
    ∧ ((cleaned_texts posts).length < 2 → (buildAnalysisResult posts).phrases = [])
    ∧ (minePhrases (cleaned_texts posts) = none → (buildAnalysisResult posts).phrases = [])
    ∧ (∀ ps, 2 ≤ (cleaned_texts posts).length →
        minePhrases (cleaned_texts posts) = some ps →
        (buildAnalysisResult posts).phrases = ps)
    ∧ (buildAnalysisResult posts).high_engagement
        = (sortKeyed (fun t => t.engagement) (high_engagement_tweets posts)).take 3
    ∧ (buildAnalysisResult posts).high_engagement.length ≤ 3
    ∧ (buildAnalysisResult posts).high_engagement.Pairwise
        (fun a b => b.engagement ≤ a.engagement)
    ∧ (∀ t ∈ (buildAnalysisResult posts).high_engagement, 10 < t.engagement)
    ∧ (buildAnalysisResult posts).top_conversations.length ≤ 5
    ∧ (buildAnalysisResult posts).top_conversations.Pairwise (fun a b =>
        toLex (b.2.count, b.2.engagement) ≤ toLex (a.2.count, a.2.engagement)) := by
  have hb1 : (buildAnalysisResult posts).hashtags = (analyze_trending_topics posts).hashtags := rfl
  have hb2 : (buildAnalysisResult posts).phrases = (analyze_trending_topics posts).phrases := rfl
  have hb3 : (buildAnalysisResult posts).high_engagement = high_engagement_top posts := rfl
  have hb4 : (buildAnalysisResult posts).top_conversations = top_conversations posts := rfl
  refine ⟨?_, ?_, ?_, ?_, ?_, ?_, ?_, ?_, ?_, ?_, ?_, ?_, ?_⟩
  · rw [hb1, analyze_hashtags_eq]
  · rw [hb1, analyze_hashtags_eq, top_hashtags]
    exact List.length_take_le _ _
  · rw [hb2]
    exact analyze_phrases_length posts
  · rw [hb2]
    exact analyze_phrases_sorted posts
  · intro h
    rw [hb2]
    exact analyze_phrases_lt2 posts h
  · intro hm
    rw [hb2]
    exact analyze_phrases_of_none posts hm
  · intro ps h2 hm
    rw [hb2]
    exact analyze_phrases_some posts ps (Nat.not_lt.mpr h2) hm
  · rw [hb3, high_engagement_top]
  · rw [hb3, high_engagement_top]
    exact List.length_take_le _ _
  · rw [hb3, high_engagement_top]
    exact List.Pairwise.sublist (List.take_sublist _ _)
      (sortKeyed_pairwise_key (fun t => t.engagement) (high_engagement_tweets posts))
  · rw [hb3, high_engagement_top]
    intro t ht
    exact high_engagement_tweets_gt posts t
      (sortKeyed_mem.mp (List.mem_of_mem_take ht))
  · rw [hb4, top_conversations]
    exact List.length_take_le _ _
  · rw [hb4, top_conversations]
    exact List.Pairwise.sublist (List.take_sublist _ _)
      (sortKeyed_pairwise_key (fun e => toLex (e.2.count, e.2.engagement))
        (top_conversations_all posts))

/-- A post with engagement score 5: below the high-engagement threshold. -/
def lowScorePost : Post := ⟨21, "quiet post", some [("like_count", 5)], none, none⟩

theorem lowScorePost_score : engagement_score lowScorePost = 5 := by
  have h : engagement_score lowScorePost
      = ((5 : ℕ) : ℚ) + ((0 : ℕ) : ℚ) * 2 + ((0 : ℕ) : ℚ) * (3 / 2)
        + ((0 : ℕ) : ℚ) * (9 / 5) := rfl
  rw [h]; norm_num

/-- Counterexample to C1 as stated: on a single post of score 5 the result's
high-engagement component is empty, yet the "3 highest-engagement-score posts"
of §3, read literally, are the nonempty list holding that post — the result
does not contain them. -/
theorem C1_counterexample :
    (buildAnalysisResult [lowScorePost]).high_engagement = []
    ∧ specHighestPosts [lowScorePost] = [lowScorePost] := by
  constructor
  · have h0 : high_engagement_tweets [lowScorePost] = [] := by
      have : ¬ (10 : ℚ) < engagement_score lowScorePost := by
        rw [lowScorePost_score]; norm_num
      simp [high_engagement_tweets, this]
    have hb : (buildAnalysisResult [lowScorePost]).high_engagement
        = high_engagement_top [lowScorePost] := rfl
    rw [hb, high_engagement_top, h0]
    simp [sortKeyed]
  · simp [specHighestPosts, sortKeyed, List.enum]

/-- A post with engagement score 20: above the high-engagement threshold. -/
def highPost : Post := ⟨22, "big post", some [("like_count", 20)], none, none⟩

theorem highPost_score : engagement_score highPost = 20 := by
  have h : engagement_score highPost
      = ((20 : ℕ) : ℚ) + ((0 : ℕ) : ℚ) * 2 + ((0 : ℕ) : ℚ) * (3 / 2)
        + ((0 : ℕ) : ℚ) * (9 / 5) := rfl
  rw [h]; norm_num

theorem highPost_high_engagement :
    (buildAnalysisResult [highPost]).high_engagement = [⟨"big post", 20, 22⟩] := by
  have h0 : high_engagement_tweets [highPost] = [⟨"big post", 20, 22⟩] := by
    have hgt : (10 : ℚ) < engagement_score highPost := by
      rw [highPost_score]; norm_num
    simp only [high_engagement_tweets, List.filterMap]
    rw [if_pos hgt, highPost_score]
    rfl
  have hb : (buildAnalysisResult [highPost]).high_engagement
      = high_engagement_top [highPost] := rfl
  rw [hb, high_engagement_top, h0]
  simp [sortKeyed, List.enum]

/-! ### Phrase ordering (claim C10) -/

theorem vocabulary_sorted (grams : List (List String)) :
    (vocabulary grams).Pairwise (fun a b => a.data < b.data) := by
  have hsorted := @List.sorted_mergeSort String
    (fun a b : String => decide (a.data ≤ b.data))
    (fun a b c hab hbc => by
      rw [decide_eq_true_eq] at *
      exact le_trans hab hbc)
    (fun a b => by
      rcases le_total a.data b.data with h | h <;> simp [h])
    (grams.flatten.dedup)
  have hnodup : ((grams.flatten.dedup).mergeSort
      (fun a b : String => decide (a.data ≤ b.data))).Nodup :=
    (List.mergeSort_perm _ _).nodup_iff.mpr (List.nodup_dedup _)
  have hne : ((grams.flatten.dedup).mergeSort
      (fun a b : String => decide (a.data ≤ b.data))).Pairwise (fun a b => a ≠ b) := hnodup
  have hstrict : ((grams.flatten.dedup).mergeSort
      (fun a b : String => decide (a.data ≤ b.data))).Pairwise
        (fun a b => a.data < b.data) := by
    rw [List.pairwise_iff_get] at hsorted hne ⊢
    intro i j hij
    refine lt_of_le_of_ne ?_ ?_
    · have := hsorted i j hij
      rwa [decide_eq_true_eq] at this
    · intro hdata
      exact hne i j hij (by
        apply congrArg String.mk at hdata
        simpa using hdata)
  exact List.Pairwise.filter _ hstrict

/-- C10: when mining succeeds, the phrase list is sorted by count descending
and phrases with equal counts appear in ascending lexicographic order —
candidate phrases are enumerated over the alphabetically sorted vocabulary and
the descending sort is stable (unlike hashtag ties, which follow first-seen
order). -/
theorem C10_phrase_tie_break (posts : List Post) (ps : List (String × ℕ))
    (hlen : 2 ≤ posts.length)
    (hmine : minePhrases (cleaned_texts posts) = some ps) :
    (analyze_trending_topics posts).phrases = ps
    ∧ ps.Pairwise (fun a b => b.2 ≤ a.2)
    ∧ ps.Pairwise (fun a b => a.2 = b.2 → a.1.data < b.1.data) := by
  have hclen : ¬ (cleaned_texts posts).length < 2 := by
    rw [cleaned_texts, List.length_map]
    omega
  refine ⟨?_, ?_⟩
  · simp only [analyze_trending_topics]
    rw [if_neg hclen, hmine]
  · simp only [minePhrases] at hmine
    split at hmine
    · cases hmine
    · rw [Option.some_inj] at hmine
      rw [← hmine]
      constructor
      · exact List.Pairwise.sublist (List.take_sublist _ _)
          (sortKeyed_pairwise_key (fun pr : String × ℕ => pr.2) _)
      · refine List.Pairwise.sublist (List.take_sublist _ _)
          (sortKeyed_pairwise_of_pairwise (fun pr : String × ℕ => pr.2) ?_)
        rw [List.pairwise_map]
        exact (vocabulary_sorted _).imp (fun h => h)

/-- The two identical posts of the C10 witness. -/
def phrPost1 : Post := ⟨31, "alpha bravo charlie", none, none, none⟩

/-- Second identical post of the C10 witness. -/
def phrPost2 : Post := ⟨32, "alpha bravo charlie", none, none, none⟩

/- Witness for C10: two identical posts yield three phrases that all occur
twice, listed alphabetically. -/
unseal List.mergeSort List.merge in
theorem C10_phrase_tie_break_witness :
    (analyze_trending_topics [phrPost1, phrPost2]).phrases
      = [("alpha bravo", 2), ("alpha bravo charlie", 2), ("bravo charlie", 2)] :=
  (C10_phrase_tie_break [phrPost1, phrPost2]
    [("alpha bravo", 2), ("alpha bravo charlie", 2), ("bravo charlie", 2)]
    (by decide) (by decide)).1

/- Witness for C1 (amended): a single post of score 20 appears in the
high-engagement component with score above 10, and a two-post run carries its
mined top-10 phrase list verbatim. -/
unseal List.mergeSort List.merge in
theorem C1_analysis_result_witness :
    10 < (⟨"big post", (20 : ℚ), 22⟩ : HighTweet).engagement
    ∧ (buildAnalysisResult [phrPost1, phrPost2]).phrases
        = [("alpha bravo", 2), ("alpha bravo charlie", 2), ("bravo charlie", 2)] :=
  ⟨(C1_analysis_result [highPost]).2.2.2.2.2.2.2.2.2.2.1 ⟨"big post", 20, 22⟩
      (highPost_high_engagement ▸ List.mem_singleton_self _),
    (C1_analysis_result [phrPost1, phrPost2]).2.2.2.2.2.2.1
      [("alpha bravo", 2), ("alpha bravo charlie", 2), ("bravo charlie", 2)]
      (by decide) (by decide)⟩

/-! ### Round-trip parsing (claim C9) -/

theorem parseNat_append (ds : List Char) (c : Char) :
    parseNat (ds ++ [c]) = 10 * parseNat ds + (c.toNat - 48) := by
  rw [parseNat, List.foldl_append]
  rfl

theorem digitChar_toNat : ∀ m < 10, (Nat.digitChar m).toNat - 48 = m := by decide

theorem digitChar_isDigit : ∀ m < 10, (Nat.digitChar m).isDigit := by decide

theorem natDigitsAux_spec (fuel : ℕ) :
    ∀ n, n < 10 ^ (fuel + 1) →
      parseNat (natDigitsAux (fuel + 1) n) = n
      ∧ natDigitsAux (fuel + 1) n ≠ []
      ∧ ∀ c ∈ natDigitsAux (fuel + 1) n, c.isDigit := by
  induction fuel with
  | zero =>
      intro n hn
      rw [pow_one] at hn
      rw [natDigitsAux, if_pos hn]
      refine ⟨?_, by simp, ?_⟩
      · show 10 * 0 + ((Nat.digitChar n).toNat - 48) = n
        rw [digitChar_toNat n hn]
        omega
      · intro c hc
        rw [List.mem_singleton] at hc
        subst hc
        exact digitChar_isDigit n hn
  | succ f ih =>
      intro n hn
      by_cases h10 : n < 10
      · rw [natDigitsAux, if_pos h10]
        refine ⟨?_, by simp, ?_⟩
        · show 10 * 0 + ((Nat.digitChar n).toNat - 48) = n
          rw [digitChar_toNat n h10]
          omega
        · intro c hc
          rw [List.mem_singleton] at hc
          subst hc
          exact digitChar_isDigit n h10
      · rw [natDigitsAux, if_neg h10]
        have hdiv : n / 10 < 10 ^ (f + 1) := by
          rw [Nat.div_lt_iff_lt_mul (by norm_num)]
          calc n < 10 ^ (f + 1 + 1) := hn
            _ = 10 ^ (f + 1) * 10 := pow_succ 10 (f + 1)
        obtain ⟨h1, _, h3⟩ := ih (n / 10) hdiv
        refine ⟨?_, by simp, ?_⟩
        · rw [parseNat_append, h1, digitChar_toNat (n % 10) (Nat.mod_lt _ (by norm_num))]
          exact Nat.div_add_mod n 10
        · intro c hc
          rcases List.mem_append.mp hc with h | h
          · exact h3 c h
          · rw [List.mem_singleton] at h
            subst h
            exact digitChar_isDigit _ (Nat.mod_lt _ (by norm_num))

theorem nat_lt_ten_pow (n : ℕ) : n < 10 ^ (n + 1) := by
  calc n < 2 ^ n := Nat.lt_two_pow n
    _ ≤ 10 ^ n := Nat.pow_le_pow_left (by norm_num) n
    _ ≤ 10 ^ (n + 1) := Nat.pow_le_pow_right (by norm_num) (Nat.le_succ n)

theorem natRepr_spec (n : ℕ) :
    parseNat (natRepr n).data = n
    ∧ (natRepr n).data ≠ []
    ∧ ∀ c ∈ (natRepr n).data, c.isDigit :=
  natDigitsAux_spec n n (nat_lt_ten_pow n)

theorem natRepr_lt_ten (n : ℕ) (h : n < 10) : (natRepr n).data = [Nat.digitChar n] := by
  show natDigitsAux (n + 1) n = _
  cases n with
  | zero => rfl
  | succ m => rw [natDigitsAux, if_pos h]

theorem isDigit_ne_nl {c : Char} (h : c.isDigit) : c ≠ '\n' := by
  rintro rfl
  exact absurd h (by decide)

theorem isDigit_ne_paren {c : Char} (h : c.isDigit) : ¬ c = '(' := by
  rintro rfl
  exact absurd h (by decide)

theorem nlFree_append {s t : String} : nlFree (s ++ t) ↔ nlFree s ∧ nlFree t := by
  simp [nlFree, String.data_append, not_or]

theorem nlFree_natRepr (n : ℕ) : nlFree (natRepr n) := by
  intro hmem
  exact absurd ((natRepr_spec n).2.2 _ hmem) (by decide)

theorem nlFree_intRepr (z : ℤ) : nlFree (intRepr z) := by
  rw [intRepr]
  split
  · rw [nlFree_append]
    exact ⟨show '\n' ∉ ("-" : String).data by decide, nlFree_natRepr _⟩
  · exact nlFree_natRepr _

theorem splitLines_nlfree_chars (l : List Char) (h : '\n' ∉ l) : splitLines l = [l] := by
  induction l with
  | nil => rfl
  | cons c cs ih =>
      rw [splitLines, if_neg (fun hc => h (List.mem_cons.mpr (Or.inl hc.symm))),
        ih (fun hm => h (List.mem_cons_of_mem c hm))]

theorem splitLines_append_cons (l b : List Char) (h : '\n' ∉ l) :
    splitLines (l ++ '\n' :: b) = l :: splitLines b := by
  induction l with
  | nil => simp [splitLines]
  | cons c cs ih =>
      rw [List.cons_append, splitLines,
        if_neg (fun hc => h (List.mem_cons.mpr (Or.inl hc.symm))),
        ih (fun hm => h (List.mem_cons_of_mem c hm))]

theorem splitLines_linesBlock (ls : List String) (b : List Char)
    (h : ∀ s ∈ ls, nlFree s) :
    splitLines ((linesBlock ls).data ++ b) = ls.map String.data ++ splitLines b := by
  induction ls with
  | nil => simp [linesBlock]
  | cons s ss ih =>
      have hd : ((linesBlock (s :: ss)).data ++ b)
          = s.data ++ '\n' :: ((linesBlock ss).data ++ b) := by
        rw [linesBlock]
        simp [String.data_append, show ("\n" : String).data = ['\n'] from rfl]
      rw [hd, splitLines_append_cons _ _ (h s (List.mem_cons_self s ss)),
        ih (fun t ht => h t (List.mem_cons_of_mem s ht))]
      simp

instance (s : String) : Decidable (nlFree s) :=
  inferInstanceAs (Decidable ('\n' ∉ s.data))

/-- The summary as a list of lines: header and blank line, the four optional
sections, each a header line, numbered lines and a blank line. -/
def summaryLines (date : String) (a : AnalysisResult) : List String :=
  ["📊 Nigerian UK Community Trends: " ++ date ++ " 📊", ""]
  ++ (if a.hashtags.isEmpty then [] else
      "🔥 Top Hashtags:" :: numbered hashtagLine (a.hashtags.take 5) ++ [""])
  ++ (if a.phrases.isEmpty then [] else
      "💬 Trending Topics:" :: numbered phraseLine (a.phrases.take 5) ++ [""])
  ++ (if a.top_conversations.isEmpty then [] else
      "🗣️ Most Active Discussions:" :: numbered convLine (a.top_conversations.take 3) ++ [""])
  ++ (match a.high_engagement with
      | [] => []
      | t :: _ => ["⭐ Most Engaging Tweet:", "\"" ++ tweetPreview t ++ "\"",
          "Engagement score: " ++ intRepr (pyRound t.engagement), ""])

theorem linesBlock_data_append (xs ys : List String) :
    (linesBlock (xs ++ ys)).data = (linesBlock xs).data ++ (linesBlock ys).data := by
  induction xs with
  | nil => simp [linesBlock]
  | cons s ss ih =>
      rw [List.cons_append, linesBlock, linesBlock]
      simp [String.data_append, ih]

theorem create_summary_data (date : String) (a : AnalysisResult) (n : ℕ) :
    (create_summary date a n).data
      = (linesBlock (summaryLines date a)).data ++ (footerLine n).data := by
  by_cases h1 : a.hashtags.isEmpty <;> by_cases h2 : a.phrases.isEmpty <;>
    by_cases h3 : a.top_conversations.isEmpty <;> cases hE : a.high_engagement <;>
    simp [create_summary, summaryLines, headerLine, hashtagSection, phraseSection,
      convSection, engagementSection, h1, h2, h3, hE, linesBlock_data_append, linesBlock,
      String.data_append, List.append_assoc]

theorem nlFree_hashtagLine (i : ℕ) (e : String × ℕ) (h : nlFree e.1) :
    nlFree (hashtagLine i e) := by
  simp only [hashtagLine, nlFree_append]
  exact ⟨⟨⟨⟨⟨nlFree_natRepr i, by decide⟩, h⟩, by decide⟩, nlFree_natRepr e.2⟩, by decide⟩

theorem nlFree_phraseLine (i : ℕ) (e : String × ℕ) (h : nlFree e.1) :
    nlFree (phraseLine i e) := by
  simp only [phraseLine, nlFree_append]
  exact ⟨⟨⟨⟨⟨nlFree_natRepr i, by decide⟩, h⟩, by decide⟩, nlFree_natRepr e.2⟩, by decide⟩

theorem nlFree_convLine (i : ℕ) (e : String × ConvBucket) (h : nlFree e.2.sample_text) :
    nlFree (convLine i e) := by
  simp only [convLine, nlFree_append]
  exact ⟨⟨⟨⟨⟨⟨⟨nlFree_natRepr i, by decide⟩, h⟩, by decide⟩, nlFree_natRepr e.2.count⟩,
    by decide⟩, nlFree_intRepr _⟩, by decide⟩

theorem nlFree_tweetPreview (t : HighTweet) (h : nlFree t.text) :
    nlFree (tweetPreview t) := by
  rw [tweetPreview]
  split
  · rw [nlFree_append]
    exact ⟨fun hm => h (List.mem_of_mem_take hm), by decide⟩
  · exact h

theorem nlFree_footerLine (n : ℕ) : nlFree (footerLine n) := by
  simp only [footerLine, nlFree_append]
  exact ⟨⟨by decide, nlFree_natRepr n⟩, by decide⟩

theorem numbered_mem {α : Type} {f : ℕ → α → String} {l : List α} {s : String}
    (hs : s ∈ numbered f l) : ∃ i e, i < l.length ∧ e ∈ l ∧ s = f (i + 1) e := by
  rw [numbered] at hs
  obtain ⟨⟨i, e⟩, hie, rfl⟩ := List.mem_map.mp hs
  obtain ⟨hi, hx⟩ := List.mem_enum hie
  exact ⟨i, e, hi, by rw [hx]; exact List.getElem_mem hi, rfl⟩

theorem summaryLines_nlFree (date : String) (a : AnalysisResult)
    (hdate : nlFree date)
    (hh : ∀ e ∈ a.hashtags, nlFree e.1)
    (hp : ∀ e ∈ a.phrases, nlFree e.1)
    (hc : ∀ e ∈ a.top_conversations, nlFree e.2.sample_text)
    (he : ∀ t ∈ a.high_engagement, nlFree t.text) :
    ∀ s ∈ summaryLines date a, nlFree s := by
  rw [summaryLines, List.forall_mem_append, List.forall_mem_append,
    List.forall_mem_append, List.forall_mem_append]
  refine ⟨⟨⟨⟨?_, ?_⟩, ?_⟩, ?_⟩, ?_⟩
  · intro s hs
    rcases List.mem_cons.mp hs with rfl | hs
    · simp only [nlFree_append]
      exact ⟨⟨by decide, hdate⟩, by decide⟩
    · rw [List.mem_singleton] at hs
      subst hs
      decide
  · split
    · simp
    · intro s hs
      rcases List.mem_cons.mp hs with rfl | hs
      · decide
      · rcases List.mem_append.mp hs with hs | hs
        · obtain ⟨i, e, _, he', rfl⟩ := numbered_mem hs
          exact nlFree_hashtagLine _ _ (hh e (List.mem_of_mem_take he'))
        · rw [List.mem_singleton] at hs
          subst hs
          decide
  · split
    · simp
    · intro s hs
      rcases List.mem_cons.mp hs with rfl | hs
      · decide
      · rcases List.mem_append.mp hs with hs | hs
        · obtain ⟨i, e, _, he', rfl⟩ := numbered_mem hs
          exact nlFree_phraseLine _ _ (hp e (List.mem_of_mem_take he'))
        · rw [List.mem_singleton] at hs
          subst hs
          decide
  · split
    · simp
    · intro s hs
      rcases List.mem_cons.mp hs with rfl | hs
      · decide
      · rcases List.mem_append.mp hs with hs | hs
        · obtain ⟨i, e, _, he', rfl⟩ := numbered_mem hs
          exact nlFree_convLine _ _ (hc e (List.mem_of_mem_take he'))
        · rw [List.mem_singleton] at hs
          subst hs
          decide
  · split
    · simp
    · rename_i t rest hE
      intro s hs
      have ht : t ∈ a.high_engagement := by
        rw [hE]
        exact List.mem_cons_self t rest
      rcases List.mem_cons.mp hs with rfl | hs
      · decide
      · rcases List.mem_cons.mp hs with rfl | hs
        · simp only [nlFree_append]
          exact ⟨⟨by decide, nlFree_tweetPreview t (he t ht)⟩, by decide⟩
        · rcases List.mem_cons.mp hs with rfl | hs
          · simp only [nlFree_append]
            exact ⟨by decide, nlFree_intRepr _⟩
          · rw [List.mem_singleton] at hs
            subst hs
            decide

theorem summary_splitLines (date : String) (a : AnalysisResult) (n : ℕ)
    (h : ∀ s ∈ summaryLines date a, nlFree s) :
    splitLines (create_summary date a n).data
      = (summaryLines date a).map String.data ++ [(footerLine n).data] := by
  rw [create_summary_data, splitLines_linesBlock _ _ h,
    splitLines_nlfree_chars _ (nlFree_footerLine n)]

theorem takeWhile_append_stop {α : Type} (p : α → Bool) (xs ys : List α) (c : α)
    (hxs : ∀ a ∈ xs, p a) (hc : ¬ p c) :
    (xs ++ c :: ys).takeWhile p = xs := by
  induction xs with
  | nil => simp [List.takeWhile_cons, hc]
  | cons a as ih =>
      rw [List.cons_append, List.takeWhile_cons, if_pos (hxs a (List.mem_cons_self a as)),
        ih (fun b hb => hxs b (List.mem_cons_of_mem a hb))]

theorem dropWhile_append_stop {α : Type} (p : α → Bool) (xs ys : List α) (c : α)
    (hxs : ∀ a ∈ xs, p a) (hc : ¬ p c) :
    (xs ++ c :: ys).dropWhile p = c :: ys := by
  induction xs with
  | nil => simp [List.dropWhile_cons, hc]
  | cons a as ih =>
      rw [List.cons_append, List.dropWhile_cons, if_pos (hxs a (List.mem_cons_self a as)),
        ih (fun b hb => hxs b (List.mem_cons_of_mem a hb))]

theorem stripEnd_append (xs ys : List Char) : stripEnd ys.length (xs ++ ys) = xs := by
  rw [stripEnd, List.length_append, Nat.add_sub_cancel]
  exact List.take_left xs ys

theorem splitCount_spec (lab : List Char) (cnt : ℕ) :
    splitCount (lab ++ ' ' :: '(' :: (natRepr cnt).data) = (lab, cnt) := by
  have hdig : ∀ a ∈ (natRepr cnt).data.reverse, (!(a = '(' : Bool)) = true := by
    intro a ha
    have := (natRepr_spec cnt).2.2 a (List.mem_reverse.mp ha)
    simp [isDigit_ne_paren this]
  have hpar : ¬ ((!('(' = '(' : Bool)) = true) := by decide
  have hrev : (lab ++ ' ' :: '(' :: (natRepr cnt).data).reverse
      = (natRepr cnt).data.reverse ++ '(' :: ' ' :: lab.reverse := by
    simp
  rw [splitCount, hrev, takeWhile_append_stop _ _ _ _ hdig hpar,
    dropWhile_append_stop _ _ _ _ hdig hpar]
  simp [(natRepr_spec cnt).1]

theorem parseHashtagLine_render (i : ℕ) (e : String × ℕ) (hi : i < 10) :
    parseHashtagLine ((hashtagLine i e).data) = e := by
  have hdata : (hashtagLine i e).data
      = Nat.digitChar i :: '.' :: ' ' :: '#' ::
        ((e.1.data ++ ' ' :: '(' :: (natRepr e.2).data)
          ++ (" weighted mentions)" : String).data) := by
    simp [hashtagLine, String.data_append, natRepr_lt_ten i hi, List.append_assoc,
      show (". #" : String).data = ['.', ' ', '#'] from rfl,
      show (" (" : String).data = [' ', '('] from rfl]
  rw [parseHashtagLine, hdata]
  have hdrop : (Nat.digitChar i :: '.' :: ' ' :: '#' ::
      ((e.1.data ++ ' ' :: '(' :: (natRepr e.2).data)
        ++ (" weighted mentions)" : String).data)).drop 4
      = (e.1.data ++ ' ' :: '(' :: (natRepr e.2).data)
          ++ (" weighted mentions)" : String).data := rfl
  rw [hdrop, show (19 : ℕ) = (" weighted mentions)" : String).data.length from rfl,
    stripEnd_append, splitCount_spec]

theorem parsePhraseLine_render (i : ℕ) (e : String × ℕ) (hi : i < 10) :
    parsePhraseLine ((phraseLine i e).data) = e := by
  have hdata : (phraseLine i e).data
      = Nat.digitChar i :: '.' :: ' ' ::
        ((e.1.data ++ ' ' :: '(' :: (natRepr e.2).data)
          ++ (" mentions)" : String).data) := by
    simp [phraseLine, String.data_append, natRepr_lt_ten i hi, List.append_assoc,
      show (". " : String).data = ['.', ' '] from rfl,
      show (" (" : String).data = [' ', '('] from rfl]
  rw [parsePhraseLine, hdata]
  have hdrop : (Nat.digitChar i :: '.' :: ' ' ::
      ((e.1.data ++ ' ' :: '(' :: (natRepr e.2).data)
        ++ (" mentions)" : String).data)).drop 3
      = (e.1.data ++ ' ' :: '(' :: (natRepr e.2).data)
          ++ (" mentions)" : String).data := rfl
  rw [hdrop, show (10 : ℕ) = (" mentions)" : String).data.length from rfl,
    stripEnd_append, splitCount_spec]

theorem sectionLines_skip (hdr : List Char) (ls ls' : List (List Char))
    (h : ∀ l ∈ ls, l ≠ hdr) :
    sectionLines hdr (ls ++ ls') = sectionLines hdr ls' := by
  induction ls with
  | nil => rfl
  | cons l ls ih =>
      rw [List.cons_append, sectionLines, if_neg (h l (List.mem_cons_self l ls)),
        ih (fun x hx => h x (List.mem_cons_of_mem l hx))]

theorem sectionLines_none (hdr : List Char) (ls : List (List Char))
    (h : ∀ l ∈ ls, l ≠ hdr) :
    sectionLines hdr ls = [] := by
  induction ls with
  | nil => rfl
  | cons l ls ih =>
      rw [sectionLines, if_neg (h l (List.mem_cons_self l ls)),
        ih (fun x hx => h x (List.mem_cons_of_mem l hx))]

theorem sectionLines_found (hdr : List Char) (entries rest : List (List Char))
    (hne : ∀ l ∈ entries, l.isEmpty = false) :
    sectionLines hdr (hdr :: (entries ++ [] :: rest)) = entries := by
  rw [sectionLines, if_pos rfl]
  refine takeWhile_append_stop _ _ _ _ ?_ ?_
  · intro a ha
    simp [hne a ha]
  · simp

theorem ne_of_head {c d : Char} {cs ds : List Char} (h : c ≠ d) : c :: cs ≠ d :: ds := by
  intro he
  injection he with h1 _
  exact h h1

theorem data_head_append (s t : String) {c : Char} {cs : List Char} (h : s.data = c :: cs) :
    (s ++ t).data = c :: (cs ++ t.data) := by
  rw [String.data_append, h]
  rfl

theorem natRepr_head (n : ℕ) : ∃ c cs, (natRepr n).data = c :: cs ∧ c.isDigit := by
  obtain ⟨-, hne, hdig⟩ := natRepr_spec n
  cases h : (natRepr n).data with
  | nil => exact absurd h hne
  | cons c cs =>
      refine ⟨c, cs, rfl, hdig c ?_⟩
      rw [h]
      exact List.mem_cons_self c cs

theorem hashtagLine_head (i : ℕ) (e : String × ℕ) :
    ∃ c cs, (hashtagLine i e).data = c :: cs ∧ c.isDigit := by
  obtain ⟨c, cs, h, hc⟩ := natRepr_head i
  refine ⟨c, cs ++ (". #" ++ e.1 ++ " (" ++ natRepr e.2
    ++ " weighted mentions)").data, ?_, hc⟩
  simp [hashtagLine, String.data_append, h, List.append_assoc]

theorem phraseLine_head (i : ℕ) (e : String × ℕ) :
    ∃ c cs, (phraseLine i e).data = c :: cs ∧ c.isDigit := by
  obtain ⟨c, cs, h, hc⟩ := natRepr_head i
  refine ⟨c, cs ++ (". " ++ e.1 ++ " (" ++ natRepr e.2 ++ " mentions)").data, ?_, hc⟩
  simp [phraseLine, String.data_append, h, List.append_assoc]

theorem convLine_head (i : ℕ) (e : String × ConvBucket) :
    ∃ c cs, (convLine i e).data = c :: cs ∧ c.isDigit := by
  obtain ⟨c, cs, h, hc⟩ := natRepr_head i
  refine ⟨c, cs ++ (". \"" ++ e.2.sample_text ++ "...\" (" ++ natRepr e.2.count
    ++ " replies, " ++ intRepr (pyRound e.2.engagement) ++ " engagement)").data, ?_, hc⟩
  simp [convLine, String.data_append, h, List.append_assoc]

theorem map_parse_hashtag (l : List (String × ℕ)) (hlen : l.length ≤ 5) :
    ((numbered hashtagLine l).map String.data).map parseHashtagLine = l := by
  rw [numbered, List.map_map, List.map_map]
  have hpt : ∀ x ∈ l.enum,
      parseHashtagLine (String.data (hashtagLine (x.1 + 1) x.2)) = Prod.snd x := by
    intro x hx
    obtain ⟨hi, -⟩ := List.mem_enum hx
    exact parseHashtagLine_render _ _ (by omega)
  exact (List.map_congr_left hpt).trans (List.enum_map_snd l)

theorem map_parse_phrase (l : List (String × ℕ)) (hlen : l.length ≤ 5) :
    ((numbered phraseLine l).map String.data).map parsePhraseLine = l := by
  rw [numbered, List.map_map, List.map_map]
  have hpt : ∀ x ∈ l.enum,
      parsePhraseLine (String.data (phraseLine (x.1 + 1) x.2)) = Prod.snd x := by
    intro x hx
    obtain ⟨hi, -⟩ := List.mem_enum hx
    exact parsePhraseLine_render _ _ (by omega)
  exact (List.map_congr_left hpt).trans (List.enum_map_snd l)

theorem numbered_map_ne_hdr {α : Type} (f : ℕ → α → String)
    (hf : ∀ i e, ∃ c cs, (f i e).data = c :: cs ∧ c.isDigit)
    (l : List α) {d : Char} {ds : List Char} (hd : ¬ d.isDigit) :
    ∀ x ∈ (numbered f l).map String.data, x ≠ d :: ds := by
  intro x hx
  obtain ⟨s, hs, rfl⟩ := List.mem_map.mp hx
  obtain ⟨i, e, -, -, rfl⟩ := numbered_mem hs
  obtain ⟨c, cs, hcs, hc⟩ := hf (i + 1) e
  rw [hcs]
  exact ne_of_head (fun he => hd (he ▸ hc))

theorem hashChunk_ne (a : AnalysisResult) {d : Char} {ds : List Char}
    (h1 : d ≠ '🔥') (h2 : ¬ d.isDigit) :
    ∀ x ∈ ((if a.hashtags.isEmpty then [] else
        "🔥 Top Hashtags:" :: numbered hashtagLine (a.hashtags.take 5) ++ [""]).map
          String.data), x ≠ d :: ds := by
  split
  · simp
  · intro x hx
    obtain ⟨s, hs, rfl⟩ := List.mem_map.mp hx
    rcases List.mem_cons.mp hs with rfl | hs
    · obtain ⟨cs, hcs⟩ : ∃ cs, ("🔥 Top Hashtags:" : String).data = '🔥' :: cs := ⟨_, rfl⟩
      rw [hcs]
      exact ne_of_head (Ne.symm h1)
    · rcases List.mem_append.mp hs with hs | hs
      · exact numbered_map_ne_hdr hashtagLine hashtagLine_head _ h2 _
          (List.mem_map.mpr ⟨s, hs, rfl⟩)
      · rw [List.mem_singleton] at hs
        subst hs
        simp

theorem phraseChunk_ne (a : AnalysisResult) {d : Char} {ds : List Char}
    (h1 : d ≠ '💬') (h2 : ¬ d.isDigit) :
    ∀ x ∈ ((if a.phrases.isEmpty then [] else
        "💬 Trending Topics:" :: numbered phraseLine (a.phrases.take 5) ++ [""]).map
          String.data), x ≠ d :: ds := by
  split
  · simp
  · intro x hx
    obtain ⟨s, hs, rfl⟩ := List.mem_map.mp hx
    rcases List.mem_cons.mp hs with rfl | hs
    · obtain ⟨cs, hcs⟩ : ∃ cs, ("💬 Trending Topics:" : String).data = '💬' :: cs := ⟨_, rfl⟩
      rw [hcs]
      exact ne_of_head (Ne.symm h1)
    · rcases List.mem_append.mp hs with hs | hs
      · exact numbered_map_ne_hdr phraseLine phraseLine_head _ h2 _
          (List.mem_map.mpr ⟨s, hs, rfl⟩)
      · rw [List.mem_singleton] at hs
        subst hs
        simp

theorem convChunk_ne (a : AnalysisResult) {d : Char} {ds : List Char}
    (h1 : d ≠ '🗣') (h2 : ¬ d.isDigit) :
    ∀ x ∈ ((if a.top_conversations.isEmpty then [] else
        "🗣️ Most Active Discussions:" :: numbered convLine (a.top_conversations.take 3)
          ++ [""]).map String.data), x ≠ d :: ds := by
  split
  · simp
  · intro x hx
    obtain ⟨s, hs, rfl⟩ := List.mem_map.mp hx
    rcases List.mem_cons.mp hs with rfl | hs
    · obtain ⟨cs, hcs⟩ : ∃ cs, ("🗣️ Most Active Discussions:" : String).data
          = '🗣' :: cs := ⟨_, rfl⟩
      rw [hcs]
      exact ne_of_head (Ne.symm h1)
    · rcases List.mem_append.mp hs with hs | hs
      · exact numbered_map_ne_hdr convLine convLine_head _ h2 _
          (List.mem_map.mpr ⟨s, hs, rfl⟩)
      · rw [List.mem_singleton] at hs
        subst hs
        simp

theorem engChunk_ne (a : AnalysisResult) {d : Char} {ds : List Char}
    (h1 : d ≠ '⭐') (h2 : d ≠ '"') (h3 : d ≠ 'E') :
    ∀ x ∈ ((match a.high_engagement with
        | [] => []
        | t :: _ => ["⭐ Most Engaging Tweet:", "\"" ++ tweetPreview t ++ "\"",
            "Engagement score: " ++ intRepr (pyRound t.engagement), ""]).map String.data),
      x ≠ d :: ds := by
  split
  · simp
  · rename_i t rest
    intro x hx
    obtain ⟨s, hs, rfl⟩ := List.mem_map.mp hx
    rcases List.mem_cons.mp hs with rfl | hs
    · obtain ⟨cs, hcs⟩ : ∃ cs, ("⭐ Most Engaging Tweet:" : String).data = '⭐' :: cs :=
        ⟨_, rfl⟩
      rw [hcs]
      exact ne_of_head (Ne.symm h1)
    · rcases List.mem_cons.mp hs with rfl | hs
      · rw [data_head_append _ _ (data_head_append _ _
          (show ("\"" : String).data = '"' :: [] from rfl))]
        exact ne_of_head (Ne.symm h2)
      · rcases List.mem_cons.mp hs with rfl | hs
        · obtain ⟨cs, hcs⟩ : ∃ cs, ("Engagement score: " : String).data = 'E' :: cs :=
            ⟨_, rfl⟩
          rw [data_head_append _ _ hcs]
          exact ne_of_head (Ne.symm h3)
        · rw [List.mem_singleton] at hs
          subst hs
          simp

theorem footer_ne (n : ℕ) {d : Char} {ds : List Char} (h1 : d ≠ 'T') :
    (footerLine n).data ≠ d :: ds := by
  obtain ⟨cs, hcs⟩ : ∃ cs, ("Today's activity: " : String).data = 'T' :: cs := ⟨_, rfl⟩
  rw [footerLine, data_head_append _ _ (data_head_append _ _ hcs)]
  exact ne_of_head (Ne.symm h1)

theorem headerTop_ne (date : String) {d : Char} {ds : List Char} (h1 : d ≠ '📊') :
    ("📊 Nigerian UK Community Trends: " ++ date ++ " 📊").data ≠ d :: ds := by
  obtain ⟨cs, hcs⟩ : ∃ cs, ("📊 Nigerian UK Community Trends: " : String).data
      = '📊' :: cs := ⟨_, rfl⟩
  rw [data_head_append _ _ (data_head_append _ _ hcs)]
  exact ne_of_head (Ne.symm h1)

theorem parse_hashtags_eq (date : String) (a : AnalysisResult) (n : ℕ)
    (hh : a.hashtags.length ≤ 5)
    (hnl : ∀ s ∈ summaryLines date a, nlFree s) :
    parse_hashtags (create_summary date a n) = a.hashtags := by
  have hP : ∀ x ∈ ((if a.phrases.isEmpty then [] else
      "💬 Trending Topics:" :: (numbered phraseLine (a.phrases.take 5) ++ [""])).map
        String.data), x ≠ ['🔥', ' ', 'T', 'o', 'p', ' ', 'H', 'a', 's', 'h', 't', 'a', 'g', 's', ':'] := phraseChunk_ne a (by decide) (by decide)
  have hC : ∀ x ∈ ((if a.top_conversations.isEmpty then [] else
      "🗣️ Most Active Discussions:" :: (numbered convLine (a.top_conversations.take 3)
        ++ [""])).map String.data), x ≠ ['🔥', ' ', 'T', 'o', 'p', ' ', 'H', 'a', 's', 'h', 't', 'a', 'g', 's', ':'] := convChunk_ne a (by decide) (by decide)
  have hE : ∀ x ∈ ((match a.high_engagement with
      | [] => []
      | t :: _ => ["⭐ Most Engaging Tweet:", "\"" ++ tweetPreview t ++ "\"",
          "Engagement score: " ++ intRepr (pyRound t.engagement), ""]).map String.data),
      x ≠ ['🔥', ' ', 'T', 'o', 'p', ' ', 'H', 'a', 's', 'h', 't', 'a', 'g', 's', ':'] := engChunk_ne a (by decide) (by decide) (by decide)
  rw [parse_hashtags, summary_splitLines date a n hnl, summaryLines]
  simp only [List.map_append, List.map_cons, List.map_nil, List.append_assoc,
    List.cons_append, List.nil_append]
  rw [sectionLines, if_neg (headerTop_ne date (by decide)),
    sectionLines, if_neg (by decide)]
  by_cases hHE : a.hashtags.isEmpty
  · rw [if_pos hHE]
    simp only [List.map_nil, List.nil_append]
    rw [sectionLines_skip _ _ _ hP, sectionLines_skip _ _ _ hC,
      sectionLines_skip _ _ _ hE,
      sectionLines, if_neg (footer_ne n (by decide))]
    simp [sectionLines]
    exact List.isEmpty_iff.mp hHE
  · rw [if_neg hHE]
    simp only [List.map_cons, List.map_append, List.map_nil, List.append_assoc,
      List.cons_append, List.nil_append,
      show ("" : String).data = [] from rfl]
    have hne : ∀ l ∈ (numbered hashtagLine (a.hashtags.take 5)).map String.data,
        l.isEmpty = false := by
      intro l hl
      obtain ⟨s, hs, rfl⟩ := List.mem_map.mp hl
      obtain ⟨i, e, -, -, rfl⟩ := numbered_mem hs
      obtain ⟨c, cs, hcs, -⟩ := hashtagLine_head (i + 1) e
      rw [hcs]
      rfl
    rw [sectionLines_found _ _ _ hne, map_parse_hashtag _ (List.length_take_le 5 _)]
    exact List.take_of_length_le hh

theorem parse_phrases_eq (date : String) (a : AnalysisResult) (n : ℕ)
    (hp : a.phrases.length ≤ 5)
    (hnl : ∀ s ∈ summaryLines date a, nlFree s) :
    parse_phrases (create_summary date a n) = a.phrases := by
  have hH : ∀ x ∈ ((if a.hashtags.isEmpty then [] else
      "🔥 Top Hashtags:" :: (numbered hashtagLine (a.hashtags.take 5) ++ [""])).map
        String.data), x ≠ ['💬', ' ', 'T', 'r', 'e', 'n', 'd', 'i', 'n', 'g', ' ', 'T', 'o', 'p', 'i', 'c', 's', ':'] := hashChunk_ne a (by decide) (by decide)
  have hC : ∀ x ∈ ((if a.top_conversations.isEmpty then [] else
      "🗣️ Most Active Discussions:" :: (numbered convLine (a.top_conversations.take 3)
        ++ [""])).map String.data), x ≠ ['💬', ' ', 'T', 'r', 'e', 'n', 'd', 'i', 'n', 'g', ' ', 'T', 'o', 'p', 'i', 'c', 's', ':'] := convChunk_ne a (by decide) (by decide)
  have hE : ∀ x ∈ ((match a.high_engagement with
      | [] => []
      | t :: _ => ["⭐ Most Engaging Tweet:", "\"" ++ tweetPreview t ++ "\"",
          "Engagement score: " ++ intRepr (pyRound t.engagement), ""]).map String.data),
      x ≠ ['💬', ' ', 'T', 'r', 'e', 'n', 'd', 'i', 'n', 'g', ' ', 'T', 'o', 'p', 'i', 'c', 's', ':'] := engChunk_ne a (by decide) (by decide) (by decide)
  rw [parse_phrases, summary_splitLines date a n hnl, summaryLines]
  simp only [List.map_append, List.map_cons, List.map_nil, List.append_assoc,
    List.cons_append, List.nil_append]
  rw [sectionLines, if_neg (headerTop_ne date (by decide)),
    sectionLines, if_neg (by decide),
    sectionLines_skip _ _ _ hH]
  by_cases hPE : a.phrases.isEmpty
  · rw [if_pos hPE]
    simp only [List.map_nil, List.nil_append]
    rw [sectionLines_skip _ _ _ hC, sectionLines_skip _ _ _ hE,
      sectionLines, if_neg (footer_ne n (by decide))]
    simp [sectionLines]
    exact List.isEmpty_iff.mp hPE
  · rw [if_neg hPE]
    simp only [List.map_cons, List.map_append, List.map_nil, List.append_assoc,
      List.cons_append, List.nil_append,
      show ("" : String).data = [] from rfl]
    have hne : ∀ l ∈ (numbered phraseLine (a.phrases.take 5)).map String.data,
        l.isEmpty = false := by
      intro l hl
      obtain ⟨s, hs, rfl⟩ := List.mem_map.mp hl
      obtain ⟨i, e, -, -, rfl⟩ := numbered_mem hs
      obtain ⟨c, cs, hcs, -⟩ := phraseLine_head (i + 1) e
      rw [hcs]
      rfl
    rw [sectionLines_found _ _ _ hne, map_parse_phrase _ (List.length_take_le 5 _)]
    exact List.take_of_length_le hp

/-- C9 (amended): rendering then re-parsing the numbered sections recovers the
hashtag and phrase lists exactly — order and counts — for any result with at
most 5 entries per list, provided the rendered labels, sample texts, top-tweet
text and date contain no newline character. -/
theorem C9_roundtrip (date : String) (a : AnalysisResult) (n : ℕ)
    (hh : a.hashtags.length ≤ 5) (hp : a.phrases.length ≤ 5)
    (hdate : nlFree date)
    (hhnl : ∀ e ∈ a.hashtags, nlFree e.1)
    (hpnl : ∀ e ∈ a.phrases, nlFree e.1)
    (hcnl : ∀ e ∈ a.top_conversations, nlFree e.2.sample_text)
    (henl : ∀ t ∈ a.high_engagement, nlFree t.text) :
    parse_hashtags (create_summary date a n) = a.hashtags
    ∧ parse_phrases (create_summary date a n) = a.phrases := by
  have hnl := summaryLines_nlFree date a hdate hhnl hpnl hcnl henl
  exact ⟨parse_hashtags_eq date a n hh hnl, parse_phrases_eq date a n hp hnl⟩

/-- Witness for C9 (amended) on a concrete one-entry result. -/
theorem C9_roundtrip_witness :
    parse_hashtags (create_summary "2025-06-01"
        ⟨[("nigeria", 7)], [("new event", 3)], [], []⟩ 9) = [("nigeria", 7)]
    ∧ parse_phrases (create_summary "2025-06-01"
        ⟨[("nigeria", 7)], [("new event", 3)], [], []⟩ 9) = [("new event", 3)] :=
  C9_roundtrip "2025-06-01" ⟨[("nigeria", 7)], [("new event", 3)], [], []⟩ 9
    (by decide) (by decide) (by decide) (by decide) (by decide) (by decide) (by decide)

/- Counterexample to C9 as stated: the renderer is not injective on
unrestricted labels — a hashtag label containing a newline forges a second
numbered line, so a one-entry result and a two-entry result (both within the
5-entry bound) render to the identical summary, and no parser can recover
both. -/
set_option maxRecDepth 4096 in
theorem C9_counterexample :
    create_summary "2025-06-01"
        ⟨[("a (1 weighted mentions)\n2. #b", 1)], [], [], []⟩ 2
      = create_summary "2025-06-01" ⟨[("a", 1), ("b", 1)], [], [], []⟩ 2
    ∧ (⟨[("a (1 weighted mentions)\n2. #b", 1)], [], [], []⟩ : AnalysisResult)
      ≠ ⟨[("a", 1), ("b", 1)], [], [], []⟩ := by
  constructor
  · decide
  · decide
